import Mathlib

/-!
# Verification of the five-lines tile-puzzle engine

Shallow embedding of the board-simulation core of the repository
(`src/index.ts`, first variant, and `src/unnamed/part_000`), and proofs
about its movement, pushing, unlocking and gravity rules.

Conventions of the embedding:

* A grid is a `List (List Tile)`, row-major, row 0 at the top, exactly as
  the `Tile[][]` arrays of the source.
* JavaScript indexing semantics are modelled explicitly: reading
  `map[y]` with `y` outside `0 ≤ y < map.length` yields `undefined`, and
  a subsequent `undefined[x]` throws a `TypeError`.  Reading an element
  of an existing row at an out-of-range `x` yields `undefined` without
  throwing.  `readC g y x = none` therefore means the read *throws*;
  `readC g y x = some none` means the read yields `undefined`;
  `readC g y x = some (some t)` is an ordinary in-range read.
* Functions whose source can throw return a `CResult` carrying a
  `crashed` flag together with the state as it stood when the exception
  was raised (mutations performed before the throw persist, as they do in
  the JavaScript program, where the grid is a module-level variable).
* Writes: every grid write in the source is dominated by a successful
  in-range read of the same row, so a missing-row write crash is
  unreachable; an out-of-range column write in JavaScript stores a
  property that leaves every in-range cell unchanged, which `List.set`
  (a no-op out of range) also does.  `setT` models writes accordingly.
-/

/-- Result of an operation that may throw a `TypeError`: the `crashed`
flag, plus the state at the moment of the throw (or the final state). -/
structure CResult (σ : Type) where
  crashed : Bool
  state : σ
deriving Repr, DecidableEq

section GridOps

variable {α : Type}

/-- A row-major grid, as the `Tile[][]` of the source. -/
abbrev Grid (α : Type) : Type := List (List α)

/-- JavaScript `g[y]`: `none` is `undefined` (row index out of range). -/
def rowAt (g : Grid α) (y : Int) : Option (List α) :=
  if 0 ≤ y then g[y.toNat]? else none

/-- JavaScript `row[x]`: `none` is `undefined` (column index out of range). -/
def elemAt (r : List α) (x : Int) : Option α :=
  if 0 ≤ x then r[x.toNat]? else none

/-- JavaScript `g[y][x]`.  `none`: the read throws (`g[y]` was
`undefined`); `some none`: the read yields `undefined`; `some (some a)`:
an in-range read. -/
def readC (g : Grid α) (y x : Int) : Option (Option α) :=
  (rowAt g y).map fun r => elemAt r x

/-- Total in-range read with `Nat` coordinates. -/
def cellAt (g : Grid α) (y x : Nat) : Option α :=
  g[y]?.bind fun r => r[x]?

/-- In-place write at `Nat` coordinates (`List.set` is a no-op out of
range, matching the effect of a JavaScript out-of-range element write on
the in-range cells). -/
def setN (g : Grid α) (y x : Nat) (v : α) : Grid α :=
  g.set y ((g.getD y []).set x v)

/-- In-place write at `Int` coordinates.  Negative coordinates store a
JavaScript property invisible to in-range reads, hence the no-op. -/
def setT (g : Grid α) (y x : Int) (v : α) : Grid α :=
  if 0 ≤ y ∧ 0 ≤ x then setN g y.toNat x.toNat v else g

/-- Length of row `y` of the grid (`map[y].length`). -/
def rowLen (g : Grid α) (y : Nat) : Nat :=
  (g.getD y []).length

end GridOps

section GridCounts

variable {α β : Type} [DecidableEq α]

/-- How many cells of the grid hold the tile `t`. -/
def countTile (g : Grid α) (t : α) : Nat :=
  (g.map fun r => r.count t).sum

/-- Column `j` of the grid, each entry viewed through `f` (`none` for a
row shorter than `j + 1`). -/
def colMap (g : Grid α) (f : Option α → β) (j : Nat) : List β :=
  g.map fun r => f r[j]?

/-- Occurrence count of `a` in `l` (`countP` form, instance-stable). -/
def countIn (l : List α) (a : α) : Nat :=
  l.countP fun b => decide (b = a)

end GridCounts

/-- A coordinate pair, as the `Point`/`Cell` classes of the source:
`x` is the column, `y` the row. -/
structure Point where
  x : Int
  y : Int
deriving Repr, DecidableEq

/-!
## Variant 1: `src/index.ts`, lines 1–201

The globals `map : Tile[][]` and `player : Point` become an explicit
`V1.State`.
-/

namespace V1

/-- The `Tile` enum of the first variant, falling sub-states included. -/
inductive Tile where
  | AIR | FLUX | UNBREAKABLE | PLAYER
  | STONE | FALLING_STONE | BOX | FALLING_BOX
  | KEY1 | LOCK1 | KEY2 | LOCK2
deriving Repr, DecidableEq

/-- Membership in the `empty` set: `{AIR, FLUX, KEY1, KEY2}`. -/
def emptySet (t : Tile) : Bool :=
  t = Tile.AIR || t = Tile.FLUX || t = Tile.KEY1 || t = Tile.KEY2

/-- The `locksAndKeys` table: `KEY1 ↦ LOCK1`, `KEY2 ↦ LOCK2`. -/
def locksAndKeys : Tile → Option Tile
  | Tile.KEY1 => some Tile.LOCK1
  | Tile.KEY2 => some Tile.LOCK2
  | _ => none

/-- The module-level mutable state: the grid and the player position. -/
structure State where
  map : Grid Tile
  player : Point
deriving Repr, DecidableEq

/-- `remove(tile)`: two nested index loops setting every matching cell to
`AIR`; order-independent, hence a pointwise map. -/
def remove (t : Tile) (m : Grid Tile) : Grid Tile :=
  m.map (List.map fun u => if u = t then Tile.AIR else u)

/-- `removeLocks(current)`: `current in locksAndKeys` is false for
`undefined` and for non-key tiles. -/
def removeLocks (current : Option Tile) (m : Grid Tile) : Grid Tile :=
  match current with
  | some u =>
    match locksAndKeys u with
    | some lock => remove lock m
    | none => m
  | none => m

/-- `canOccupy(tile)`: `empty.has(tile)`; `undefined` is in no set. -/
def canOccupy (t : Option Tile) : Bool :=
  match t with
  | some u => emptySet u
  | none => false

/-- `moveToTile(p)`: unlock on the tile at `p`, clear the player's old
cell, write `PLAYER` at `p`, update the cached player position.  The
first match is the read `map[p.y][p.x]` inside `removeLocks(...)`; the
second is the write `map[player.y][player.x] = AIR`, which throws when
the player's row is missing (after the unlock sweep already ran). -/
def moveToTile (s : State) (p : Point) : CResult State :=
  match readC s.map p.y p.x with
  | none => ⟨true, s⟩
  | some t =>
    let m1 := removeLocks t s.map
    match rowAt m1 s.player.y with
    | none => ⟨true, { s with map := m1 }⟩
    | some _ =>
      let m2 := setT m1 s.player.y s.player.x Tile.AIR
      let m3 := setT m2 p.y p.x Tile.PLAYER
      ⟨false, { map := m3, player := p }⟩

/-- `canPush(goingTo, dx)`: the three `const` bindings are evaluated
eagerly, so the below-row read `map[goingTo.y + 1][goingTo.x]` throws
whenever `goingTo.y + 1` is outside the grid, even if `isPushable` is
already false. -/
def canPush (m : Grid Tile) (goingTo : Point) (dx : Int) : Option Bool :=
  match readC m goingTo.y goingTo.x with
  | none => none
  | some newTile =>
    match readC m goingTo.y (goingTo.x + dx) with
    | none => none
    | some after =>
      match readC m (goingTo.y + 1) goingTo.x with
      | none => none
      | some below =>
        let isPushable := newTile = some Tile.STONE || newTile = some Tile.BOX
        let emptyAfter := after = some Tile.AIR
        let emptyBelow := below = some Tile.AIR
        some (isPushable && emptyAfter && !emptyBelow)

/-- `moveHorizontal(dx)`.  In the push branch the source writes the tile
value previously read into `newTile`; that branch requires `isPushable`,
so `newTile` is a real tile and the `getD` default is never used. -/
def moveHorizontal (dx : Int) (s : State) : CResult State :=
  let goingTo : Point := ⟨s.player.x + dx, s.player.y⟩
  match readC s.map goingTo.y goingTo.x with
  | none => ⟨true, s⟩
  | some newTile =>
    if canOccupy newTile then
      moveToTile s goingTo
    else
      match canPush s.map goingTo dx with
      | none => ⟨true, s⟩
      | some b =>
        if b then
          let m1 := setT s.map goingTo.y (goingTo.x + dx) (newTile.getD Tile.AIR)
          moveToTile { s with map := m1 } goingTo
        else ⟨false, s⟩

/-- `moveVertical(dy)`. -/
def moveVertical (dy : Int) (s : State) : CResult State :=
  let goingTo : Point := ⟨s.player.x, s.player.y + dy⟩
  match readC s.map goingTo.y goingTo.x with
  | none => ⟨true, s⟩
  | some t =>
    if canOccupy t then moveToTile s goingTo else ⟨false, s⟩

/-- The `Input` enum. -/
inductive Input where
  | UP | DOWN | LEFT | RIGHT
deriving Repr, DecidableEq

/-- The dispatch of `update()`: one queued input applied to the state. -/
def applyInput : Input → State → CResult State
  | Input.LEFT => moveHorizontal (-1)
  | Input.RIGHT => moveHorizontal 1
  | Input.UP => moveVertical (-1)
  | Input.DOWN => moveVertical 1

/-- The loop body of `dropTiles()` at cell `(x, y)` (`y`, `x` are the
in-range loop indices).  `none` models the `TypeError` thrown by the
read `map[y + 1][x]` when row `y + 1` does not exist; by `&&`
short-circuiting that read only happens when `map[y][x]` is a (possibly
falling) stone or box. -/
def dropCell (m : Grid Tile) (y x : Nat) : Option (Grid Tile) :=
  let t := cellAt m y x
  if t = some Tile.STONE ∨ t = some Tile.FALLING_STONE then
    match m[y + 1]? with
    | none => none
    | some row =>
      if row[x]? = some Tile.AIR then
        some (setN (setN m (y + 1) x Tile.FALLING_STONE) y x Tile.AIR)
      else if t = some Tile.FALLING_STONE then
        some (setN m y x Tile.STONE)
      else
        some m
  else if t = some Tile.BOX ∨ t = some Tile.FALLING_BOX then
    match m[y + 1]? with
    | none => none
    | some row =>
      if row[x]? = some Tile.AIR then
        some (setN (setN m (y + 1) x Tile.FALLING_BOX) y x Tile.AIR)
      else if t = some Tile.FALLING_BOX then
        some (setN m y x Tile.BOX)
      else
        some m
  else if t = some Tile.FALLING_STONE then
    some (setN m y x Tile.STONE)
  else if t = some Tile.FALLING_BOX then
    some (setN m y x Tile.BOX)
  else
    some m

/-- The inner `x` loop of `dropTiles()` over row `y`. -/
def dropCells (y : Nat) : Grid Tile → List Nat → CResult (Grid Tile)
  | m, [] => ⟨false, m⟩
  | m, x :: xs =>
    match dropCell m y x with
    | none => ⟨true, m⟩
    | some m1 => dropCells y m1 xs

/-- The outer `y` loop of `dropTiles()`; the row length is re-read from
the current grid when a row's inner loop starts, as in the source. -/
def dropRows : Grid Tile → List Nat → CResult (Grid Tile)
  | m, [] => ⟨false, m⟩
  | m, y :: ys =>
    let r := dropCells y m (List.range (rowLen m y))
    if r.crashed then r else dropRows r.state ys

/-- `dropTiles()`: `y` runs from `map.length - 1` down to `0`. -/
def dropTiles (m : Grid Tile) : CResult (Grid Tile) :=
  dropRows m (List.range m.length).reverse

end V1

/-!
## Variant `src/unnamed/part_000`

The `Cell` objects of the source are coordinate views into the shared
`tiles` array; their reads and writes are inlined here at the
coordinates they denote.  The `Board` becomes an explicit `P0.State`.
-/

namespace P0

/-- The `Tile` enum of `part_000` (no falling sub-states). -/
inductive Tile where
  | AIR | FLUX | UNBREAKABLE | PLAYER
  | STONE | BOX
  | KEY1 | LOCK1 | KEY2 | LOCK2
deriving Repr, DecidableEq

/-- Membership in the `consumable` set: `{AIR, FLUX, KEY1, KEY2}`. -/
def consumable (t : Tile) : Bool :=
  t = Tile.AIR || t = Tile.FLUX || t = Tile.KEY1 || t = Tile.KEY2

/-- The `locksAndKeys` map: `KEY1 ↦ LOCK1`, `KEY2 ↦ LOCK2`. -/
def locksAndKeys : Tile → Option Tile
  | Tile.KEY1 => some Tile.LOCK1
  | Tile.KEY2 => some Tile.LOCK2
  | _ => none

/-- The `Board`: the `tiles` grid and the cached `player` cell. -/
structure State where
  tiles : Grid Tile
  player : Point
deriving Repr, DecidableEq

/-- `Cell.canBeConsumed()` on a read tile value (`undefined` is in no
set). -/
def canBeConsumed (t : Option Tile) : Bool :=
  match t with
  | some u => consumable u
  | none => false

/-- `Cell.canFall()` on a read tile value. -/
def canFall (t : Option Tile) : Bool :=
  t = some Tile.STONE || t = some Tile.BOX

/-- `Cell.canBePushed(dx)`: `canFall() && after.isEmpty() &&
!below.isEmpty()` with JavaScript short-circuiting, so the below-row
read (which throws when row `c.y + 1` is missing) is reached only when
the cell holds a stone or box and the cell after it is empty. -/
def canBePushed (m : Grid Tile) (c : Point) (dx : Int) : Option Bool :=
  match readC m c.y c.x with
  | none => none
  | some t =>
    if canFall t then
      match readC m c.y (c.x + dx) with
      | none => none
      | some a =>
        if a = some Tile.AIR then
          match readC m (c.y + 1) c.x with
          | none => none
          | some b => some (!(b = some Tile.AIR))
        else some false
    else some false

/-- `Cell.moveTile(to)`: `to.setTile(this.tile()); this.clear()`.  The
source cell is in range at every call site, so the read yields a tile. -/
def moveTileG (m : Grid Tile) (src dst : Point) : Grid Tile :=
  match readC m src.y src.x with
  | some (some u) => setT (setT m dst.y dst.x u) src.y src.x Tile.AIR
  | _ => m

/-- One step of the `remove(tile)` generator sweep at cell `(x, y)`:
clear the cell if it currently holds `t`. -/
def removeCell (t : Tile) (m : Grid Tile) (y x : Nat) : Grid Tile :=
  if cellAt m y x = some t then setN m y x Tile.AIR else m

/-- The inner loop of the `remove(tile)` sweep over row `y`. -/
def removeCells (t : Tile) (y : Nat) : Grid Tile → List Nat → Grid Tile
  | m, [] => m
  | m, x :: xs => removeCells t y (removeCell t m y x) xs

/-- The outer loop of the `remove(tile)` sweep. -/
def removeRows (t : Tile) : Grid Tile → List Nat → Grid Tile
  | m, [] => m
  | m, y :: ys => removeRows t (removeCells t y m (List.range (rowLen m y))) ys

/-- `Board.remove(tile)`: the `cells(c => c.is(tile))` generator with a
`c.clear()` body, i.e. a row-major sweep clearing matching cells. -/
def removeG (t : Tile) (m : Grid Tile) : Grid Tile :=
  removeRows t m (List.range m.length)

/-- `Board.maybeUnlock(current)`. -/
def maybeUnlock (current : Option Tile) (m : Grid Tile) : Grid Tile :=
  match current with
  | some u =>
    match locksAndKeys u with
    | some lock => removeG lock m
    | none => m
  | none => m

/-- `Board.movePlayerTo(c)`: unlock on `c`'s tile, then
`player.moveTile(c)` (write the player's tile into `c`, clear the old
player cell), then re-point `player` at `c`.  The second match is the
read `this.tile()` of the old player cell inside `moveTile`. -/
def movePlayerTo (s : State) (c : Point) : CResult State :=
  match readC s.tiles c.y c.x with
  | none => ⟨true, s⟩
  | some t =>
    let m1 := maybeUnlock t s.tiles
    match readC m1 s.player.y s.player.x with
    | none => ⟨true, { s with tiles := m1 }⟩
    | some pt =>
      let m2 := setT m1 c.y c.x (pt.getD Tile.AIR)
      let m3 := setT m2 s.player.y s.player.x Tile.AIR
      ⟨false, { tiles := m3, player := c }⟩

/-- `Board.move(dx, dy)`. -/
def move (dx dy : Int) (s : State) : CResult State :=
  let goingTo : Point := ⟨s.player.x + dx, s.player.y + dy⟩
  match readC s.tiles goingTo.y goingTo.x with
  | none => ⟨true, s⟩
  | some t =>
    if canBeConsumed t then
      movePlayerTo s goingTo
    else if dx ≠ 0 then
      match canBePushed s.tiles goingTo dx with
      | none => ⟨true, s⟩
      | some b =>
        if b then
          let m1 := moveTileG s.tiles goingTo ⟨goingTo.x + dx, goingTo.y⟩
          movePlayerTo { s with tiles := m1 } goingTo
        else ⟨false, s⟩
    else ⟨false, s⟩

/-- The body of the `dropTilesOneCell()` generator loop at cell
`(x, y)`: the predicate `c.canFall()` is re-evaluated on the current
grid when the generator resumes, then the guarded one-cell move runs.
Total: the below-cell is only read when `y < tiles.length - 1`. -/
def dropCell (m : Grid Tile) (y x : Nat) : Grid Tile :=
  if canFall (cellAt m y x) then
    if y < m.length - 1 then
      if cellAt m (y + 1) x = some Tile.AIR then
        setN (setN m (y + 1) x ((cellAt m y x).getD Tile.AIR)) y x Tile.AIR
      else m
    else m
  else m

/-- The inner (column) traversal of `dropTilesOneCell()` over row `y`. -/
def dropCells (y : Nat) : Grid Tile → List Nat → Grid Tile
  | m, [] => m
  | m, x :: xs => dropCells y (dropCell m y x) xs

/-- The outer (row) traversal of `dropTilesOneCell()`: `y` ascends from
`0`, as the `cells` generator does. -/
def dropRows : Grid Tile → List Nat → Grid Tile
  | m, [] => m
  | m, y :: ys => dropRows (dropCells y m (List.range (rowLen m y))) ys

/-- `Board.dropTilesOneCell()`. -/
def dropTilesOneCell (m : Grid Tile) : Grid Tile :=
  dropRows m (List.range m.length)

/-- Row-major list of the coordinates of every cell, as produced by the
`cells` generator on an unmutated grid. -/
def cellCoords (g : Grid Tile) : List Point :=
  (List.range g.length).flatMap fun y =>
    (List.range (rowLen g y)).map fun x : Nat => ⟨(x : Int), (y : Int)⟩

/-- The coordinates of the cells holding `PLAYER`, in generator order. -/
def playerCells (g : Grid Tile) : List Point :=
  (cellCoords g).filter fun p => readC g p.y p.x = some (some Tile.PLAYER)

/-- The value produced by the `Board` constructor: `player` is the first
yield of the `cells(c => c.is(Tile.PLAYER))` generator (`undefined` if
the generator is immediately done), and `assertOk` records whether the
`console.assert(players.next().done)` condition held — `console.assert`
logs on failure but neither throws nor aborts. -/
structure BoardInit where
  tiles : Grid Tile
  player : Option Point
  assertOk : Bool
deriving Repr, DecidableEq

/-- The `Board` constructor. -/
def mkBoard (g : Grid Tile) : BoardInit :=
  { tiles := g
    player := (playerCells g).head?
    assertOk := (playerCells g).drop 1 = [] }

/-- The board invariant: exactly one cell holds `PLAYER`, and the cached
`player` coordinate reads back the `PLAYER` tile. -/
def inv (s : State) : Prop :=
  countTile s.tiles Tile.PLAYER = 1 ∧
    readC s.tiles s.player.y s.player.x = some (some Tile.PLAYER)

instance (s : State) : Decidable (inv s) := by
  unfold inv; infer_instance

/-- A settled board: no cell holding a stone or box has `AIR` directly
below it. -/
def settledB (g : Grid Tile) : Bool :=
  (List.range g.length).all fun y =>
    (List.range (rowLen g y)).all fun x =>
      !(canFall (cellAt g y x) && decide (cellAt g (y + 1) x = some Tile.AIR))

end P0

namespace V1

/-- Identification of the falling and resting variants of stone and box. -/
def norm : Tile → Tile
  | Tile.FALLING_STONE => Tile.STONE
  | Tile.FALLING_BOX => Tile.BOX
  | t => t

/-- The tiles `dropTiles()` treats as subject to gravity. -/
def isPushableT (t : Tile) : Bool :=
  t = Tile.STONE || t = Tile.FALLING_STONE || t = Tile.BOX || t = Tile.FALLING_BOX

/-- No gravity-subject tile sits in the bottom row of the grid. -/
def bottomRowClear (g : Grid Tile) : Bool :=
  (g.getD (g.length - 1) []).all fun t => !isPushableT t

/-- The target coordinate each input's move computes. -/
def targetOf : Input → Point → Point
  | Input.LEFT, p => ⟨p.x + -1, p.y⟩
  | Input.RIGHT, p => ⟨p.x + 1, p.y⟩
  | Input.UP, p => ⟨p.x, p.y + -1⟩
  | Input.DOWN, p => ⟨p.x, p.y + 1⟩

/-- The horizontal component of each input's move. -/
def dxOf : Input → Int
  | Input.LEFT => -1
  | Input.RIGHT => 1
  | _ => 0

end V1

/-!
## Generic grid lemmas
-/

section GridLemmas

variable {α β : Type}

theorem getElem?_lt {l : List α} {n : Nat} {a : α} (h : l[n]? = some a) :
    n < l.length := by
  by_contra hn
  rw [List.getElem?_eq_none (by omega)] at h
  exact Option.noConfusion h

theorem length_setN (g : Grid α) (y x : Nat) (v : α) :
    (setN g y x v).length = g.length := by
  rw [setN, List.length_set]

theorem cellAt_lt {g : Grid α} {y x : Nat} {a : α} (h : cellAt g y x = some a) :
    y < g.length ∧ x < rowLen g y := by
  unfold cellAt at h
  cases hr : g[y]? with
  | none => rw [hr] at h; simp at h
  | some r =>
    rw [hr] at h
    simp only [Option.some_bind] at h
    refine ⟨getElem?_lt hr, ?_⟩
    rw [rowLen, List.getD_eq_getElem?_getD, hr]
    exact getElem?_lt h

theorem cellAt_of_getElem {g : Grid α} {y x : Nat} {r : List α} {a : α}
    (hr : g[y]? = some r) (ha : r[x]? = some a) : cellAt g y x = some a := by
  rw [cellAt, hr]
  simpa using ha

theorem setN_eq_set {g : Grid α} {y : Nat} {r : List α} (hr : g[y]? = some r)
    (x : Nat) (v : α) : setN g y x v = g.set y (r.set x v) := by
  rw [setN, List.getD_eq_getElem?_getD, hr, Option.getD_some]

theorem rowLen_setN (g : Grid α) (y x : Nat) (v : α) (y1 : Nat) :
    rowLen (setN g y x v) y1 = rowLen g y1 := by
  unfold rowLen
  by_cases hy : y1 = y
  · subst hy
    cases hr : g[y1]? with
    | none =>
      have hlen : g.length ≤ y1 := by rw [List.getElem?_eq_none_iff] at hr; exact hr
      rw [setN, List.set_eq_of_length_le hlen]
    | some r =>
      rw [setN_eq_set hr]
      simp only [List.getD_eq_getElem?_getD, hr,
        List.getElem?_set_self (by simpa using getElem?_lt hr)]
      simp
  · rw [setN]
    simp only [List.getD_eq_getElem?_getD, List.getElem?_set_ne (by omega : y ≠ y1)]

theorem cellAt_setN_self {g : Grid α} {y x : Nat} (hy : y < g.length)
    (hx : x < rowLen g y) (v : α) : cellAt (setN g y x v) y x = some v := by
  cases hr : g[y]? with
  | none => rw [List.getElem?_eq_none_iff] at hr; omega
  | some r =>
    rw [setN_eq_set hr, cellAt,
      List.getElem?_set_self (by simpa using hy), Option.some_bind]
    have hxr : x < r.length := by
      rw [rowLen, List.getD_eq_getElem?_getD, hr] at hx; exact hx
    rw [List.getElem?_set_self (by simpa using hxr)]

theorem cellAt_setN_ne {g : Grid α} {y x : Nat} (y1 x1 : Nat) (v : α)
    (h : ¬(y1 = y ∧ x1 = x)) : cellAt (setN g y x v) y1 x1 = cellAt g y1 x1 := by
  by_cases hy : y1 = y
  · subst hy
    have hx : x1 ≠ x := fun hx => h ⟨rfl, hx⟩
    cases hr : g[y1]? with
    | none =>
      have hlen : g.length ≤ y1 := by
        by_contra hc
        rw [List.getElem?_eq_none_iff] at hr; omega
      rw [setN, List.set_eq_of_length_le hlen]
    | some r =>
      rw [setN_eq_set hr, cellAt, cellAt, hr,
        List.getElem?_set_self (by simpa using getElem?_lt hr), Option.some_bind,
        Option.some_bind, List.getElem?_set_ne (by omega)]
  · rw [cellAt, cellAt, setN, List.getElem?_set_ne (by omega)]

end GridLemmas

section BridgeLemmas

variable {α β : Type}

theorem cellAt_some {g : Grid α} {y x : Nat} {a : α} (h : cellAt g y x = some a) :
    ∃ r, g[y]? = some r ∧ r[x]? = some a := by
  unfold cellAt at h
  cases hr : g[y]? with
  | none => rw [hr] at h; simp at h
  | some r => rw [hr] at h; exact ⟨r, rfl, by simpa using h⟩

theorem readC_some_some {g : Grid α} {y x : Int} {a : α} :
    readC g y x = some (some a) ↔
      0 ≤ y ∧ 0 ≤ x ∧ cellAt g y.toNat x.toNat = some a := by
  simp only [readC, rowAt, elemAt, cellAt]
  by_cases hy : (0 : Int) ≤ y
  · rw [if_pos hy]
    cases hgy : g[y.toNat]? with
    | none => simp [hy]
    | some r =>
      by_cases hx : (0 : Int) ≤ x <;> simp [hy, hx]
  · rw [if_neg hy]
    simp [hy]

theorem readC_none {g : Grid α} {y x : Int} :
    readC g y x = none ↔ rowAt g y = none := by
  rw [readC, Option.map_eq_none']

theorem readC_nonneg_left {g : Grid α} {y x : Int} {o : Option α}
    (h : readC g y x = some o) : 0 ≤ y := by
  by_contra hy
  rw [readC, rowAt, if_neg (by omega)] at h
  exact Option.noConfusion h

theorem setT_nonneg {g : Grid α} {y x : Int} (hy : 0 ≤ y) (hx : 0 ≤ x) (v : α) :
    setT g y x v = setN g y.toNat x.toNat v := by
  rw [setT, if_pos ⟨hy, hx⟩]

theorem colMap_get {g : Grid α} {y x : Nat} {a : α} (f : Option α → β)
    (h : cellAt g y x = some a) : (colMap g f x)[y]? = some (f (some a)) := by
  obtain ⟨r, hr, ha⟩ := cellAt_some h
  rw [colMap, List.getElem?_map, hr]
  simp [ha]

theorem colMap_setN_ne (f : Option α → β) {g : Grid α} {y x : Nat} (j : Nat)
    (v : α) (hj : j ≠ x) : colMap (setN g y x v) f j = colMap g f j := by
  apply List.ext_getElem?
  intro n
  rw [colMap, colMap, List.getElem?_map, List.getElem?_map]
  by_cases hn : n = y
  · subst hn
    cases hr : g[n]? with
    | none =>
      rw [setN, List.set_eq_of_length_le
        (by rw [List.getElem?_eq_none_iff] at hr; exact hr), hr]
    | some r =>
      rw [setN_eq_set hr, List.getElem?_set_self (by simpa using getElem?_lt hr)]
      simp [List.getElem?_set_ne (by omega : x ≠ j)]
  · rw [setN, List.getElem?_set_ne (by omega : y ≠ n)]

theorem colMap_setN_eq (f : Option α → β) {g : Grid α} {y x : Nat} {a : α}
    (v : α) (h : cellAt g y x = some a) :
    colMap (setN g y x v) f x = (colMap g f x).set y (f (some v)) := by
  obtain ⟨r, hr, ha⟩ := cellAt_some h
  rw [setN_eq_set hr, colMap, colMap, List.map_set]
  congr 1
  rw [List.getElem?_set_self (by simpa using getElem?_lt ha)]

end BridgeLemmas

section CountLemmas

variable {α : Type} [DecidableEq α]

theorem count_set_elem (l : List α) :
    ∀ (n : Nat) {a : α} (b c : α), l[n]? = some a →
      (l.set n b).count c + (if a = c then 1 else 0)
        = l.count c + (if b = c then 1 else 0) := by
  induction l with
  | nil => intro n a b c h; simp at h
  | cons u us ih =>
    intro n a b c h
    cases n with
    | zero =>
      simp only [List.getElem?_cons_zero, Option.some_inj] at h
      subst h
      simp only [List.set_cons_zero, List.count_cons]
      by_cases hb : b = c <;> by_cases hu : u = c <;> simp [hb, hu] <;> try omega
    | succ n =>
      simp only [List.getElem?_cons_succ] at h
      simp only [List.set_cons_succ, List.count_cons]
      have := ih n b c h
      by_cases hu : u = c <;> simp [hu] <;> omega

theorem sum_set_elem (l : List Nat) :
    ∀ (n : Nat) {a : Nat} (b : Nat), l[n]? = some a →
      (l.set n b).sum + a = l.sum + b := by
  induction l with
  | nil => intro n a b h; simp at h
  | cons u us ih =>
    intro n a b h
    cases n with
    | zero =>
      simp only [List.getElem?_cons_zero, Option.some_inj] at h
      subst h
      simp only [List.set_cons_zero, List.sum_cons]
      omega
    | succ n =>
      simp only [List.getElem?_cons_succ] at h
      simp only [List.set_cons_succ, List.sum_cons]
      have := ih n b h
      omega

theorem countTile_setN {g : Grid α} {y x : Nat} {a : α} (v t : α)
    (h : cellAt g y x = some a) :
    countTile (setN g y x v) t + (if a = t then 1 else 0)
      = countTile g t + (if v = t then 1 else 0) := by
  obtain ⟨r, hr, ha⟩ := cellAt_some h
  rw [setN_eq_set hr, countTile, countTile, List.map_set]
  have h1 : (g.map fun r => r.count t)[y]? = some (r.count t) := by
    rw [List.getElem?_map, hr]
    rfl
  have h2 := sum_set_elem (g.map fun r => r.count t) y ((r.set x v).count t) h1
  have h3 := count_set_elem r x v t ha
  omega

end CountLemmas

section EnumLemmas

variable {α γ δ : Type} [DecidableEq α]

theorem countP_flatMap (l : List γ) (f : γ → List δ) (p : δ → Bool) :
    (l.flatMap f).countP p = (l.map fun y => (f y).countP p).sum := by
  induction l with
  | nil => rfl
  | cons a l ih => simp [List.flatMap_cons, List.countP_append, ih]

theorem countP_range_cell (r : List α) (t : α) :
    (List.range r.length).countP (fun x => decide (r[x]? = some t)) = r.count t := by
  induction r with
  | nil => simp
  | cons u us ih =>
    rw [List.length_cons, List.range_succ_eq_map, List.countP_cons, List.countP_map]
    have hfn : ((fun x => decide ((u :: us)[x]? = some t)) ∘ Nat.succ)
        = fun x => decide (us[x]? = some t) := by
      funext x
      simp
    rw [hfn, ih]
    simp only [List.getElem?_cons_zero, List.count_cons]
    by_cases hu : u = t <;> simp [hu]

theorem map_range_getD (g : List γ) (F : γ → δ) (d : γ) :
    (List.range g.length).map (fun y => F (g.getD y d)) = g.map F := by
  induction g with
  | nil => simp
  | cons u us ih =>
    rw [List.length_cons, List.range_succ_eq_map, List.map_cons, List.map_map]
    have hfn : ((fun y => F ((u :: us).getD y d)) ∘ Nat.succ)
        = fun y => F (us.getD y d) := by
      funext y
      simp [List.getD_cons_succ]
    rw [hfn, ih, List.getD_cons_zero, List.map_cons]

theorem count_map_pres (r : List α) (f : α → α) (t : α)
    (hf : ∀ u, f u = t ↔ u = t) : (r.map f).count t = r.count t := by
  induction r with
  | nil => rfl
  | cons u us ih =>
    rw [List.map_cons, List.count_cons, List.count_cons, ih]
    by_cases hu : u = t
    · have hft : f u = t := (hf u).mpr hu
      simp only [beq_iff_eq]
      rw [if_pos hft, if_pos hu]
    · have hft : ¬(f u = t) := fun hc => hu ((hf u).mp hc)
      simp only [beq_iff_eq]
      rw [if_neg hft, if_neg hu]

theorem countTile_map_pres (g : Grid α) (f : α → α) (t : α)
    (hf : ∀ u, f u = t ↔ u = t) :
    countTile (g.map (List.map f)) t = countTile g t := by
  rw [countTile, countTile, List.map_map]
  congr 1
  apply List.map_congr_left
  intro r _
  exact count_map_pres r f t hf

end EnumLemmas

section NatCastLemmas

variable {α : Type}

theorem readC_natCast {g : Grid α} (y x : Nat) {a : α} :
    readC g (y : Int) (x : Int) = some (some a) ↔ cellAt g y x = some a := by
  rw [readC_some_some]
  simp

end NatCastLemmas

theorem countP_points_row (g : Grid P0.Tile) (y : Nat) {r : List P0.Tile}
    (hr : g[y]? = some r) :
    ((List.range r.length).map (fun x : Nat => Point.mk (x : Int) (y : Int))).countP
        (fun p => decide (readC g p.y p.x = some (some P0.Tile.PLAYER)))
      = r.count P0.Tile.PLAYER := by
  rw [List.countP_map, ← countP_range_cell r P0.Tile.PLAYER]
  apply List.countP_congr
  intro x _
  show (decide (readC g (y : Int) (x : Int) = some (some P0.Tile.PLAYER)) = true)
      ↔ (decide (r[x]? = some P0.Tile.PLAYER) = true)
  rw [decide_eq_true_iff, decide_eq_true_iff, readC_natCast]
  unfold cellAt
  rw [hr]
  simp

theorem length_playerCells (g : Grid P0.Tile) :
    (P0.playerCells g).length = countTile g P0.Tile.PLAYER := by
  rw [P0.playerCells, ← List.countP_eq_length_filter, P0.cellCoords, countP_flatMap,
    countTile, ← map_range_getD g (fun r => r.count P0.Tile.PLAYER) []]
  congr 1
  apply List.map_congr_left
  intro y hy
  have hy' : y < g.length := List.mem_range.mp hy
  have hr : g[y]? = some (g.getD y []) := by
    rw [List.getD_eq_getElem?_getD, List.getElem?_eq_getElem hy']
    rfl
  have hlen : rowLen g y = (g.getD y []).length := rfl
  rw [hlen]
  exact countP_points_row g y hr

/-!
## The `remove` sweep of `part_000`

The generator clears matched cells as it passes; each step touches only
the cursor's own cell, so the sweep acts pointwise.
-/

theorem P0.cellAt_removeCell (t : P0.Tile) (m : Grid P0.Tile) (y x y1 x1 : Nat) :
    cellAt (P0.removeCell t m y x) y1 x1
      = if y1 = y ∧ x1 = x ∧ cellAt m y x = some t then some P0.Tile.AIR
        else cellAt m y1 x1 := by
  unfold P0.removeCell
  by_cases hc : cellAt m y x = some t
  · rw [if_pos hc]
    by_cases hp : y1 = y ∧ x1 = x
    · obtain ⟨h1, h2⟩ := hp
      subst h1; subst h2
      rw [if_pos ⟨rfl, rfl, hc⟩]
      obtain ⟨hy, hx⟩ := cellAt_lt hc
      exact cellAt_setN_self hy hx _
    · rw [if_neg (by tauto), cellAt_setN_ne _ _ _ hp]
  · rw [if_neg hc, if_neg (by tauto)]

theorem P0.length_removeCell (t : P0.Tile) (m : Grid P0.Tile) (y x : Nat) :
    (P0.removeCell t m y x).length = m.length := by
  unfold P0.removeCell
  by_cases hc : cellAt m y x = some t
  · rw [if_pos hc, length_setN]
  · rw [if_neg hc]

theorem P0.rowLen_removeCell (t : P0.Tile) (m : Grid P0.Tile) (y x y1 : Nat) :
    rowLen (P0.removeCell t m y x) y1 = rowLen m y1 := by
  unfold P0.removeCell
  by_cases hc : cellAt m y x = some t
  · rw [if_pos hc, rowLen_setN]
  · rw [if_neg hc]

theorem P0.cellAt_removeCells (t : P0.Tile) (ht : t ≠ P0.Tile.AIR) (y : Nat) :
    ∀ (xs : List Nat) (m : Grid P0.Tile) (y1 x1 : Nat),
      cellAt (P0.removeCells t y m xs) y1 x1
        = if y1 = y ∧ x1 ∈ xs ∧ cellAt m y1 x1 = some t then some P0.Tile.AIR
          else cellAt m y1 x1 := by
  intro xs
  induction xs with
  | nil =>
    intro m y1 x1
    simp [P0.removeCells]
  | cons x xs ih =>
    intro m y1 x1
    rw [P0.removeCells, ih]
    have hrc := P0.cellAt_removeCell t m y x y1 x1
    by_cases hy : y1 = y
    · subst hy
      by_cases hx : x1 = x
      · subst hx
        by_cases hcx : cellAt m y1 x1 = some t
        · rw [if_pos ⟨rfl, rfl, hcx⟩] at hrc
          rw [hrc, if_neg (fun hcon => ht (Option.some.inj hcon.2.2).symm),
            if_pos ⟨rfl, List.mem_cons_self x1 xs, hcx⟩]
        · rw [if_neg (fun hcon => hcx hcon.2.2)] at hrc
          rw [hrc, if_neg (fun hcon => hcx hcon.2.2), if_neg (fun hcon => hcx hcon.2.2)]
      · rw [if_neg (fun hcon => hx hcon.2.1)] at hrc
        rw [hrc]
        have hmem : (x1 ∈ x :: xs) ↔ (x1 ∈ xs) := by simp [List.mem_cons, hx]
        by_cases hc : x1 ∈ xs ∧ cellAt m y1 x1 = some t
        · rw [if_pos ⟨rfl, hc.1, hc.2⟩, if_pos ⟨rfl, hmem.mpr hc.1, hc.2⟩]
        · rw [if_neg (fun hcon => hc ⟨hcon.2.1, hcon.2.2⟩),
            if_neg (fun hcon => hc ⟨hmem.mp hcon.2.1, hcon.2.2⟩)]
    · rw [if_neg (fun hcon => hy hcon.1)] at hrc
      rw [hrc, if_neg (fun hcon => hy hcon.1), if_neg (fun hcon => hy hcon.1)]

theorem P0.length_removeCells (t : P0.Tile) (y : Nat) :
    ∀ (xs : List Nat) (m : Grid P0.Tile),
      (P0.removeCells t y m xs).length = m.length := by
  intro xs
  induction xs with
  | nil => intro m; rfl
  | cons x xs ih =>
    intro m
    rw [P0.removeCells, ih, P0.length_removeCell]

theorem P0.rowLen_removeCells (t : P0.Tile) (y : Nat) :
    ∀ (xs : List Nat) (m : Grid P0.Tile) (y1 : Nat),
      rowLen (P0.removeCells t y m xs) y1 = rowLen m y1 := by
  intro xs
  induction xs with
  | nil => intro m y1; rfl
  | cons x xs ih =>
    intro m y1
    rw [P0.removeCells, ih, P0.rowLen_removeCell]

theorem P0.cellAt_removeRows (t : P0.Tile) (ht : t ≠ P0.Tile.AIR) :
    ∀ (ys : List Nat) (m : Grid P0.Tile) (y1 x1 : Nat),
      cellAt (P0.removeRows t m ys) y1 x1
        = if y1 ∈ ys ∧ cellAt m y1 x1 = some t then some P0.Tile.AIR
          else cellAt m y1 x1 := by
  intro ys
  induction ys with
  | nil =>
    intro m y1 x1
    simp [P0.removeRows]
  | cons y ys ih =>
    intro m y1 x1
    rw [P0.removeRows, ih]
    have hrc := P0.cellAt_removeCells t ht y (List.range (rowLen m y)) m y1 x1
    by_cases hy : y1 = y
    · subst hy
      by_cases hcell : cellAt m y1 x1 = some t
      · rw [if_pos ⟨rfl, List.mem_range.mpr (cellAt_lt hcell).2, hcell⟩] at hrc
        rw [hrc, if_neg (fun hcon => ht (Option.some.inj hcon.2).symm),
          if_pos ⟨List.mem_cons_self y1 ys, hcell⟩]
      · rw [if_neg (fun hcon => hcell hcon.2.2)] at hrc
        rw [hrc, if_neg (fun hcon => hcell hcon.2), if_neg (fun hcon => hcell hcon.2)]
    · rw [if_neg (fun hcon => hy hcon.1)] at hrc
      rw [hrc]
      have hmem : (y1 ∈ y :: ys) ↔ (y1 ∈ ys) := by simp [List.mem_cons, hy]
      by_cases hc : y1 ∈ ys ∧ cellAt m y1 x1 = some t
      · rw [if_pos hc, if_pos ⟨hmem.mpr hc.1, hc.2⟩]
      · rw [if_neg hc, if_neg (fun hcon => hc ⟨hmem.mp hcon.1, hcon.2⟩)]

theorem P0.cellAt_removeG (t : P0.Tile) (ht : t ≠ P0.Tile.AIR) (m : Grid P0.Tile)
    (y x : Nat) :
    cellAt (P0.removeG t m) y x
      = if cellAt m y x = some t then some P0.Tile.AIR else cellAt m y x := by
  rw [P0.removeG, P0.cellAt_removeRows t ht]
  by_cases hcell : cellAt m y x = some t
  · rw [if_pos ⟨List.mem_range.mpr (cellAt_lt hcell).1, hcell⟩, if_pos hcell]
  · rw [if_neg (by tauto), if_neg hcell]

theorem P0.length_removeRows (t : P0.Tile) :
    ∀ (ys : List Nat) (m : Grid P0.Tile),
      (P0.removeRows t m ys).length = m.length := by
  intro ys
  induction ys with
  | nil => intro m; rfl
  | cons y ys ih =>
    intro m
    rw [P0.removeRows, ih, P0.length_removeCells]

theorem P0.rowLen_removeRows (t : P0.Tile) :
    ∀ (ys : List Nat) (m : Grid P0.Tile) (y1 : Nat),
      rowLen (P0.removeRows t m ys) y1 = rowLen m y1 := by
  intro ys
  induction ys with
  | nil => intro m y1; rfl
  | cons y ys ih =>
    intro m y1
    rw [P0.removeRows, ih, P0.rowLen_removeCells]

theorem P0.removeG_eq_map (t : P0.Tile) (ht : t ≠ P0.Tile.AIR) (m : Grid P0.Tile) :
    P0.removeG t m
      = m.map (List.map fun u => if u = t then P0.Tile.AIR else u) := by
  apply List.ext_getElem?
  intro y
  rw [List.getElem?_map]
  cases hr : m[y]? with
  | none =>
    have hlen : m.length ≤ y := by rwa [← List.getElem?_eq_none_iff]
    rw [List.getElem?_eq_none (by rw [P0.removeG, P0.length_removeRows]; exact hlen)]
    rfl
  | some r =>
    have hylt : y < m.length := getElem?_lt hr
    have hylt2 : y < (P0.removeG t m).length := by
      rw [P0.removeG, P0.length_removeRows]; exact hylt
    obtain ⟨r2, hr2⟩ : ∃ r2, (P0.removeG t m)[y]? = some r2 :=
      ⟨(P0.removeG t m)[y], List.getElem?_eq_getElem hylt2⟩
    rw [hr2]
    have hmr : Option.map (List.map fun u => if u = t then P0.Tile.AIR else u) (some r)
        = some (r.map fun u => if u = t then P0.Tile.AIR else u) := rfl
    rw [hmr]
    congr 1
    apply List.ext_getElem?
    intro x
    have hcell := P0.cellAt_removeG t ht m y x
    rw [cellAt, cellAt, hr, hr2, Option.some_bind, Option.some_bind] at hcell
    rw [List.getElem?_map]
    cases hx : r[x]? with
    | none =>
      rw [hx] at hcell
      rw [if_neg (by simp)] at hcell
      rw [hcell]
      rfl
    | some u =>
      rw [hx] at hcell
      by_cases hu : u = t
      · rw [if_pos (by rw [hu])] at hcell
        rw [hcell]
        simp [hu]
      · rw [if_neg (by simp [hu])] at hcell
        rw [hcell]
        simp [hu]

/-!
## Movement lemmas for `part_000`
-/

theorem P0.maybeUnlock_count (t : Option P0.Tile) (m : Grid P0.Tile) :
    countTile (P0.maybeUnlock t m) P0.Tile.PLAYER = countTile m P0.Tile.PLAYER := by
  cases t with
  | none => rfl
  | some u =>
    cases u <;> try rfl
    · show countTile (P0.removeG P0.Tile.LOCK1 m) P0.Tile.PLAYER = _
      rw [P0.removeG_eq_map P0.Tile.LOCK1 (by decide) m]
      apply countTile_map_pres
      intro v
      cases v <;> simp
    · show countTile (P0.removeG P0.Tile.LOCK2 m) P0.Tile.PLAYER = _
      rw [P0.removeG_eq_map P0.Tile.LOCK2 (by decide) m]
      apply countTile_map_pres
      intro v
      cases v <;> simp

theorem P0.maybeUnlock_cell (t : Option P0.Tile) (m : Grid P0.Tile) {y x : Nat}
    {a : P0.Tile} (h1 : a ≠ P0.Tile.LOCK1) (h2 : a ≠ P0.Tile.LOCK2)
    (h : cellAt m y x = some a) : cellAt (P0.maybeUnlock t m) y x = some a := by
  cases t with
  | none => exact h
  | some u =>
    cases u <;> try exact h
    · show cellAt (P0.removeG P0.Tile.LOCK1 m) y x = some a
      rw [P0.cellAt_removeG P0.Tile.LOCK1 (by decide) m,
        if_neg (by rw [h]; simp [h1])]
      exact h
    · show cellAt (P0.removeG P0.Tile.LOCK2 m) y x = some a
      rw [P0.cellAt_removeG P0.Tile.LOCK2 (by decide) m,
        if_neg (by rw [h]; simp [h2])]
      exact h

theorem P0.movePlayerTo_eq {s : P0.State} {c : Point} {w : P0.Tile}
    (h1 : readC s.tiles c.y c.x = some (some w))
    (h2 : readC (P0.maybeUnlock (some w) s.tiles) s.player.y s.player.x
      = some (some P0.Tile.PLAYER)) :
    P0.movePlayerTo s c =
      ⟨false,
        { tiles := setT (setT (P0.maybeUnlock (some w) s.tiles) c.y c.x P0.Tile.PLAYER)
            s.player.y s.player.x P0.Tile.AIR,
          player := c }⟩ := by
  unfold P0.movePlayerTo
  rw [h1]
  dsimp only
  rw [h2]
  rfl

theorem P0.movePlayerTo_inv {s : P0.State} {c : Point} {w : P0.Tile}
    (hw : w ≠ P0.Tile.PLAYER) (hw1 : w ≠ P0.Tile.LOCK1) (hw2 : w ≠ P0.Tile.LOCK2)
    (h1 : readC s.tiles c.y c.x = some (some w))
    (hcnt : countTile s.tiles P0.Tile.PLAYER = 1)
    (hp : readC s.tiles s.player.y s.player.x = some (some P0.Tile.PLAYER)) :
    (P0.movePlayerTo s c).crashed = false ∧ P0.inv (P0.movePlayerTo s c).state := by
  obtain ⟨hcy, hcx, hcell⟩ := readC_some_some.mp h1
  obtain ⟨hpy, hpx, hpcell⟩ := readC_some_some.mp hp
  have hm1cell : cellAt (P0.maybeUnlock (some w) s.tiles) c.y.toNat c.x.toNat
      = some w := P0.maybeUnlock_cell _ _ hw1 hw2 hcell
  have hm1p : cellAt (P0.maybeUnlock (some w) s.tiles) s.player.y.toNat
      s.player.x.toNat = some P0.Tile.PLAYER :=
    P0.maybeUnlock_cell _ _ (by decide) (by decide) hpcell
  have hm1cnt : countTile (P0.maybeUnlock (some w) s.tiles) P0.Tile.PLAYER = 1 := by
    rw [P0.maybeUnlock_count]; exact hcnt
  have h2 : readC (P0.maybeUnlock (some w) s.tiles) s.player.y s.player.x
      = some (some P0.Tile.PLAYER) := readC_some_some.mpr ⟨hpy, hpx, hm1p⟩
  rw [P0.movePlayerTo_eq h1 h2]
  have hne : ¬(s.player.y.toNat = c.y.toNat ∧ s.player.x.toNat = c.x.toNat) := by
    intro hcon
    rw [hcon.1, hcon.2] at hm1p
    rw [hm1p] at hm1cell
    exact hw (Option.some.inj hm1cell).symm
  have hc2 := countTile_setN P0.Tile.PLAYER P0.Tile.PLAYER hm1cell
  rw [if_neg hw, if_pos rfl] at hc2
  have hcell2p : cellAt (setN (P0.maybeUnlock (some w) s.tiles) c.y.toNat c.x.toNat
      P0.Tile.PLAYER) s.player.y.toNat s.player.x.toNat = some P0.Tile.PLAYER := by
    rw [cellAt_setN_ne _ _ _ hne]
    exact hm1p
  have hc3 := countTile_setN P0.Tile.AIR P0.Tile.PLAYER hcell2p
  rw [if_pos rfl, if_neg (by decide)] at hc3
  have hcell2c : cellAt (setN (P0.maybeUnlock (some w) s.tiles) c.y.toNat c.x.toNat
      P0.Tile.PLAYER) c.y.toNat c.x.toNat = some P0.Tile.PLAYER := by
    obtain ⟨hlt1, hlt2⟩ := cellAt_lt hm1cell
    exact cellAt_setN_self hlt1 hlt2 _
  have hcell3c : cellAt (setN (setN (P0.maybeUnlock (some w) s.tiles) c.y.toNat
      c.x.toNat P0.Tile.PLAYER) s.player.y.toNat s.player.x.toNat P0.Tile.AIR)
      c.y.toNat c.x.toNat = some P0.Tile.PLAYER := by
    rw [cellAt_setN_ne _ _ _ (fun hcon => hne ⟨hcon.1.symm, hcon.2.symm⟩)]
    exact hcell2c
  refine ⟨rfl, ?_, ?_⟩
  · show countTile (setT (setT (P0.maybeUnlock (some w) s.tiles) c.y c.x
      P0.Tile.PLAYER) s.player.y s.player.x P0.Tile.AIR) P0.Tile.PLAYER = 1
    rw [setT_nonneg hcy hcx, setT_nonneg hpy hpx]
    omega
  · show readC (setT (setT (P0.maybeUnlock (some w) s.tiles) c.y c.x
      P0.Tile.PLAYER) s.player.y s.player.x P0.Tile.AIR) c.y c.x
      = some (some P0.Tile.PLAYER)
    rw [setT_nonneg hcy hcx, setT_nonneg hpy hpx]
    exact readC_some_some.mpr ⟨hcy, hcx, hcell3c⟩

theorem P0.canBeConsumed_true {t : Option P0.Tile} (h : P0.canBeConsumed t = true) :
    ∃ w, t = some w ∧ (w = P0.Tile.AIR ∨ w = P0.Tile.FLUX ∨ w = P0.Tile.KEY1 ∨
      w = P0.Tile.KEY2) := by
  cases t with
  | none => simp [P0.canBeConsumed] at h
  | some w =>
    refine ⟨w, rfl, ?_⟩
    unfold P0.canBeConsumed P0.consumable at h
    cases w <;> simp_all

theorem P0.canBePushed_true {m : Grid P0.Tile} {c : Point} {dx : Int}
    (h : P0.canBePushed m c dx = some true) :
    ∃ u, readC m c.y c.x = some (some u) ∧
      (u = P0.Tile.STONE ∨ u = P0.Tile.BOX) ∧
      readC m c.y (c.x + dx) = some (some P0.Tile.AIR) ∧
      ∃ bv, readC m (c.y + 1) c.x = some bv ∧ bv ≠ some P0.Tile.AIR := by
  unfold P0.canBePushed at h
  cases h0 : readC m c.y c.x with
  | none => rw [h0] at h; exact absurd h (by simp)
  | some t =>
    rw [h0] at h
    dsimp only at h
    by_cases hcf : P0.canFall t
    · rw [if_pos hcf] at h
      cases h1 : readC m c.y (c.x + dx) with
      | none => rw [h1] at h; exact absurd h (by simp)
      | some a =>
        rw [h1] at h
        dsimp only at h
        by_cases ha : a = some P0.Tile.AIR
        · rw [if_pos ha] at h
          cases h2 : readC m (c.y + 1) c.x with
          | none => rw [h2] at h; exact absurd h (by simp)
          | some bv =>
            rw [h2] at h
            dsimp only at h
            have hbv : bv ≠ some P0.Tile.AIR := by
              intro hc
              rw [hc] at h
              simp at h
            obtain ⟨u, hu, hu2⟩ : ∃ u, t = some u ∧
                (u = P0.Tile.STONE ∨ u = P0.Tile.BOX) := by
              unfold P0.canFall at hcf
              cases t with
              | none => simp at hcf
              | some u =>
                refine ⟨u, rfl, ?_⟩
                simpa using hcf
            subst hu
            exact ⟨u, rfl, hu2, by rw [ha], bv, rfl, hbv⟩
        · rw [if_neg ha] at h; exact absurd h (by simp)
    · rw [if_neg hcf] at h; exact absurd h (by simp)

theorem P0.canBePushed_eval {m : Grid P0.Tile} {c : Point} {dx : Int} {u : P0.Tile}
    (h0 : readC m c.y c.x = some (some u)) (hu : P0.canFall (some u) = true)
    {a bv : Option P0.Tile} (h1 : readC m c.y (c.x + dx) = some a)
    (h2 : readC m (c.y + 1) c.x = some bv) :
    P0.canBePushed m c dx
      = some (if a = some P0.Tile.AIR then !(bv = some P0.Tile.AIR) else false) := by
  unfold P0.canBePushed
  rw [h0]
  dsimp only
  rw [if_pos hu, h1]
  dsimp only
  by_cases ha : a = some P0.Tile.AIR
  · rw [if_pos ha, h2, if_pos ha]
  · rw [if_neg ha, if_neg ha]

theorem P0.moveTileG_eq {m : Grid P0.Tile} {src : Point} {u : P0.Tile}
    (h : readC m src.y src.x = some (some u)) (dst : Point) :
    P0.moveTileG m src dst
      = setT (setT m dst.y dst.x u) src.y src.x P0.Tile.AIR := by
  unfold P0.moveTileG
  rw [h]

theorem P0.push_inv {s : P0.State} {c : Point} {dx : Int} {u : P0.Tile}
    (hu : u = P0.Tile.STONE ∨ u = P0.Tile.BOX)
    (h0 : readC s.tiles c.y c.x = some (some u))
    (hA : readC s.tiles c.y (c.x + dx) = some (some P0.Tile.AIR))
    (hcnt : countTile s.tiles P0.Tile.PLAYER = 1)
    (hp : readC s.tiles s.player.y s.player.x = some (some P0.Tile.PLAYER)) :
    P0.inv (P0.movePlayerTo
      { s with tiles := P0.moveTileG s.tiles c ⟨c.x + dx, c.y⟩ } c).state := by
  have huP : u ≠ P0.Tile.PLAYER := by rcases hu with h|h <;> subst h <;> decide
  have huA : u ≠ P0.Tile.AIR := by rcases hu with h|h <;> subst h <;> decide
  rw [P0.moveTileG_eq h0]
  dsimp only
  obtain ⟨hcy, hcx, hcell_u⟩ := readC_some_some.mp h0
  obtain ⟨hcy2, hcxdx, hcell_a⟩ := readC_some_some.mp hA
  obtain ⟨hpy, hpx, hpcell⟩ := readC_some_some.mp hp
  rw [setT_nonneg hcy hcxdx, setT_nonneg hcy hcx]
  have hne_ad : ¬(c.y.toNat = c.y.toNat ∧ c.x.toNat = (c.x + dx).toNat) := by
    intro hcon
    rw [← hcon.2] at hcell_a
    rw [hcell_u] at hcell_a
    exact huA (Option.some.inj hcell_a)
  have hne_pd : ¬(s.player.y.toNat = c.y.toNat ∧
      s.player.x.toNat = (c.x + dx).toNat) := by
    intro hcon
    rw [← hcon.1, ← hcon.2] at hcell_a
    rw [hpcell] at hcell_a
    exact (by decide : P0.Tile.PLAYER ≠ P0.Tile.AIR) (Option.some.inj hcell_a)
  have hne_ps : ¬(s.player.y.toNat = c.y.toNat ∧ s.player.x.toNat = c.x.toNat) := by
    intro hcon
    rw [← hcon.1, ← hcon.2] at hcell_u
    rw [hpcell] at hcell_u
    exact huP (Option.some.inj hcell_u).symm
  have hmid_u : cellAt (setN s.tiles c.y.toNat (c.x + dx).toNat u)
      c.y.toNat c.x.toNat = some u := by
    rw [cellAt_setN_ne _ _ _ hne_ad]
    exact hcell_u
  have hm1_air : cellAt (setN (setN s.tiles c.y.toNat (c.x + dx).toNat u)
      c.y.toNat c.x.toNat P0.Tile.AIR) c.y.toNat c.x.toNat = some P0.Tile.AIR := by
    obtain ⟨l1, l2⟩ := cellAt_lt hmid_u
    exact cellAt_setN_self l1 l2 _
  have hmid_p : cellAt (setN s.tiles c.y.toNat (c.x + dx).toNat u)
      s.player.y.toNat s.player.x.toNat = some P0.Tile.PLAYER := by
    rw [cellAt_setN_ne _ _ _ hne_pd]
    exact hpcell
  have hm1_p : cellAt (setN (setN s.tiles c.y.toNat (c.x + dx).toNat u)
      c.y.toNat c.x.toNat P0.Tile.AIR) s.player.y.toNat s.player.x.toNat
      = some P0.Tile.PLAYER := by
    rw [cellAt_setN_ne _ _ _ hne_ps]
    exact hmid_p
  have hc1 := countTile_setN u P0.Tile.PLAYER hcell_a
  rw [if_neg (by decide), if_neg huP] at hc1
  have hc2 := countTile_setN P0.Tile.AIR P0.Tile.PLAYER hmid_u
  rw [if_neg huP, if_neg (by decide)] at hc2
  exact (@P0.movePlayerTo_inv
    { tiles := setN (setN s.tiles c.y.toNat (c.x + dx).toNat u) c.y.toNat c.x.toNat
        P0.Tile.AIR,
      player := s.player }
    c P0.Tile.AIR (by decide) (by decide) (by decide)
    (readC_some_some.mpr ⟨hcy, hcx, hm1_air⟩)
    (show countTile (setN (setN s.tiles c.y.toNat (c.x + dx).toNat u) c.y.toNat
      c.x.toNat P0.Tile.AIR) P0.Tile.PLAYER = 1 by omega)
    (readC_some_some.mpr ⟨hpy, hpx, hm1_p⟩)).2

theorem P0.move_inv (dx dy : Int) (s : P0.State) (h : P0.inv s) :
    P0.inv (P0.move dx dy s).state := by
  obtain ⟨hcnt, hp⟩ := h
  unfold P0.move
  dsimp only
  cases h0 : readC s.tiles (s.player.y + dy) (s.player.x + dx) with
  | none => exact ⟨hcnt, hp⟩
  | some t =>
    dsimp only
    by_cases hcons : P0.canBeConsumed t
    · rw [if_pos hcons]
      obtain ⟨w, ht, hw⟩ := P0.canBeConsumed_true hcons
      subst ht
      have hwP : w ≠ P0.Tile.PLAYER := by rcases hw with h|h|h|h <;> subst h <;> decide
      have hwL1 : w ≠ P0.Tile.LOCK1 := by rcases hw with h|h|h|h <;> subst h <;> decide
      have hwL2 : w ≠ P0.Tile.LOCK2 := by rcases hw with h|h|h|h <;> subst h <;> decide
      exact (P0.movePlayerTo_inv hwP hwL1 hwL2 h0 hcnt hp).2
    · rw [if_neg hcons]
      by_cases hdx : dx ≠ 0
      · rw [if_pos hdx]
        cases hcb : P0.canBePushed s.tiles ⟨s.player.x + dx, s.player.y + dy⟩ dx with
        | none => exact ⟨hcnt, hp⟩
        | some b =>
          dsimp only
          cases b with
          | false =>
            rw [if_neg (by simp)]
            exact ⟨hcnt, hp⟩
          | true =>
            rw [if_pos rfl]
            obtain ⟨u, h0u, hu, hA, bv, hB, hbv⟩ := P0.canBePushed_true hcb
            exact P0.push_inv hu h0u hA hcnt hp
      · rw [if_neg hdx]
        exact ⟨hcnt, hp⟩

/-!
## Gravity lemmas for `part_000`
-/

theorem P0.canFall_true {t : Option P0.Tile} (h : P0.canFall t = true) :
    ∃ u, t = some u ∧ (u = P0.Tile.STONE ∨ u = P0.Tile.BOX) := by
  unfold P0.canFall at h
  cases t with
  | none => simp at h
  | some u => exact ⟨u, rfl, by simpa using h⟩

theorem P0.dropCell_cases (m : Grid P0.Tile) (y x : Nat) :
    P0.dropCell m y x = m ∨
    ∃ u, (u = P0.Tile.STONE ∨ u = P0.Tile.BOX) ∧ cellAt m y x = some u ∧
      y < m.length - 1 ∧ cellAt m (y + 1) x = some P0.Tile.AIR ∧
      P0.dropCell m y x = setN (setN m (y + 1) x u) y x P0.Tile.AIR := by
  unfold P0.dropCell
  by_cases h1 : P0.canFall (cellAt m y x)
  · rw [if_pos h1]
    by_cases h2 : y < m.length - 1
    · rw [if_pos h2]
      by_cases h3 : cellAt m (y + 1) x = some P0.Tile.AIR
      · rw [if_pos h3]
        right
        obtain ⟨u, hu, hu2⟩ := P0.canFall_true h1
        refine ⟨u, hu2, hu, h2, h3, ?_⟩
        rw [hu]
        rfl
      · rw [if_neg h3]
        left
        rfl
    · rw [if_neg h2]
      left
      rfl
  · rw [if_neg h1]
    left
    rfl

theorem P0.dropCell_length (m : Grid P0.Tile) (y x : Nat) :
    (P0.dropCell m y x).length = m.length := by
  rcases P0.dropCell_cases m y x with heq | ⟨u, _, _, _, _, heq⟩ <;>
    rw [heq] <;> simp [length_setN]

theorem P0.dropCells_pres {P : Grid P0.Tile → Prop}
    (hstep : ∀ m y x, P m → P (P0.dropCell m y x)) :
    ∀ (xs : List Nat) (y : Nat) (m : Grid P0.Tile), P m → P (P0.dropCells y m xs) := by
  intro xs
  induction xs with
  | nil => intro y m hm; exact hm
  | cons x xs ih => intro y m hm; exact ih y _ (hstep m y x hm)

theorem P0.dropRows_pres {P : Grid P0.Tile → Prop}
    (hstep : ∀ m y x, P m → P (P0.dropCell m y x)) :
    ∀ (ys : List Nat) (m : Grid P0.Tile), P m → P (P0.dropRows m ys) := by
  intro ys
  induction ys with
  | nil => intro m hm; exact hm
  | cons y ys ih =>
    intro m hm
    exact ih _ (P0.dropCells_pres hstep _ y m hm)

theorem P0.dropTilesOneCell_pres {P : Grid P0.Tile → Prop}
    (hstep : ∀ m y x, P m → P (P0.dropCell m y x)) (m : Grid P0.Tile) (hm : P m) :
    P (P0.dropTilesOneCell m) :=
  P0.dropRows_pres hstep _ m hm

theorem P0.dropCell_keep (pyN pxN : Nat) (m : Grid P0.Tile) (y x : Nat)
    (h : countTile m P0.Tile.PLAYER = 1 ∧ cellAt m pyN pxN = some P0.Tile.PLAYER) :
    countTile (P0.dropCell m y x) P0.Tile.PLAYER = 1 ∧
      cellAt (P0.dropCell m y x) pyN pxN = some P0.Tile.PLAYER := by
  obtain ⟨hc, hp⟩ := h
  rcases P0.dropCell_cases m y x with heq | ⟨u, hu, hcu, hy, hair, heq⟩
  · rw [heq]
    exact ⟨hc, hp⟩
  · rw [heq]
    have huP : u ≠ P0.Tile.PLAYER := by rcases hu with h|h <;> subst h <;> decide
    have hne1 : ¬(pyN = y + 1 ∧ pxN = x) := by
      intro hcon
      rw [hcon.1, hcon.2] at hp
      rw [hp] at hair
      exact (by decide : P0.Tile.PLAYER ≠ P0.Tile.AIR) (Option.some.inj hair)
    have hne2 : ¬(pyN = y ∧ pxN = x) := by
      intro hcon
      rw [hcon.1, hcon.2] at hp
      rw [hp] at hcu
      exact huP (Option.some.inj hcu).symm
    have hmid_u : cellAt (setN m (y + 1) x u) y x = some u := by
      rw [cellAt_setN_ne _ _ _ (fun hcon => (by omega : y ≠ y + 1) hcon.1)]
      exact hcu
    have hq1 := countTile_setN u P0.Tile.PLAYER hair
    rw [if_neg (by decide), if_neg huP] at hq1
    have hq2 := countTile_setN P0.Tile.AIR P0.Tile.PLAYER hmid_u
    rw [if_neg huP, if_neg (by decide)] at hq2
    refine ⟨by omega, ?_⟩
    rw [cellAt_setN_ne _ _ _ hne2, cellAt_setN_ne _ _ _ hne1]
    exact hp

/-- Claim C1: for every board holding exactly one `PLAYER` tile, the board
invariant — exactly one grid cell holds `PLAYER` and the cached player
coordinate reads back that cell — is established by the constructor and
preserved by every `Board.move` (`apply_action`) and every
`Board.dropTilesOneCell` (`advance_gravity`) call. -/
theorem C1_player_invariant :
    (∀ g : Grid P0.Tile, countTile g P0.Tile.PLAYER = 1 →
       ∃ p, (P0.mkBoard g).player = some p ∧ P0.inv ⟨g, p⟩) ∧
    (∀ (dx dy : Int) (s : P0.State), P0.inv s → P0.inv (P0.move dx dy s).state) ∧
    (∀ s : P0.State, P0.inv s →
       P0.inv ⟨P0.dropTilesOneCell s.tiles, s.player⟩) := by
  refine ⟨?_, P0.move_inv, ?_⟩
  · intro g hg
    have hlen : (P0.playerCells g).length = 1 := by
      rw [length_playerCells]
      exact hg
    obtain ⟨p, hp⟩ := List.length_eq_one.mp hlen
    have hmem : p ∈ P0.playerCells g := by
      rw [hp]
      exact List.mem_singleton.mpr rfl
    have hread : readC g p.y p.x = some (some P0.Tile.PLAYER) := by
      have h2 := (List.mem_filter.mp hmem).2
      exact of_decide_eq_true h2
    refine ⟨p, ?_, hg, hread⟩
    show (P0.playerCells g).head? = some p
    rw [hp]
    rfl
  · intro s hs
    obtain ⟨hc, hp⟩ := hs
    obtain ⟨hpy, hpx, hpcell⟩ := readC_some_some.mp hp
    have hres := @P0.dropTilesOneCell_pres
      (fun m => countTile m P0.Tile.PLAYER = 1 ∧
        cellAt m s.player.y.toNat s.player.x.toNat = some P0.Tile.PLAYER)
      (fun m y x hm => P0.dropCell_keep _ _ m y x hm)
      s.tiles ⟨hc, hpcell⟩
    exact ⟨hres.1, readC_some_some.mpr ⟨hpy, hpx, hres.2⟩⟩

/-- Witness for C1 at a concrete board: a push move and a gravity tick on
a small board, with the invariant discharged by computation. -/
theorem C1_player_invariant_witness :
    P0.inv (P0.move 1 0 ⟨[[P0.Tile.PLAYER, P0.Tile.AIR]], ⟨0, 0⟩⟩).state ∧
    P0.inv ⟨P0.dropTilesOneCell [[P0.Tile.PLAYER, P0.Tile.STONE], [P0.Tile.AIR,
      P0.Tile.AIR]], ⟨0, 0⟩⟩ :=
  ⟨C1_player_invariant.2.1 1 0 ⟨[[P0.Tile.PLAYER, P0.Tile.AIR]], ⟨0, 0⟩⟩
      (by constructor <;> decide),
    C1_player_invariant.2.2 ⟨[[P0.Tile.PLAYER, P0.Tile.STONE], [P0.Tile.AIR,
      P0.Tile.AIR]], ⟨0, 0⟩⟩ (by constructor <;> decide)⟩

/-- Counterexample to C2: with the player in the only row of a
one-by-one board, a `MoveUp` action computes target row `-1`; both
`part_000`'s `Board.move` and `index.ts`'s `moveVertical` read
`tiles[-1][x]`, i.e. index into `undefined`, and throw instead of
completing as a no-op. -/
theorem C2_out_of_bounds_counterexample :
    (P0.move 0 (-1) ⟨[[P0.Tile.PLAYER]], ⟨0, 0⟩⟩).crashed = true ∧
    (V1.moveVertical (-1) ⟨[[V1.Tile.PLAYER]], ⟨0, 0⟩⟩).crashed = true := by
  decide

/-- Claim C2, amended: in `part_000`, a horizontal action whose target
column is outside the player's row is a silent no-op (the read yields
`undefined`, which is neither consumable nor pushable), but a vertical
action whose target row is outside the grid throws while reading the
target tile; in both cases the grid and the player are unchanged at the
point the call ends. -/
theorem C2_out_of_bounds_amended :
    (∀ (s : P0.State) (dx : Int) (row : List P0.Tile),
       rowAt s.tiles s.player.y = some row →
       elemAt row (s.player.x + dx) = none →
       P0.move dx 0 s = ⟨false, s⟩) ∧
    (∀ (s : P0.State) (dy : Int),
       rowAt s.tiles (s.player.y + dy) = none →
       P0.move 0 dy s = ⟨true, s⟩) := by
  constructor
  · intro s dx row hrow helem
    have hread : readC s.tiles (s.player.y + 0) (s.player.x + dx) = some none := by
      rw [readC, add_zero, hrow]
      simp [helem]
    unfold P0.move
    dsimp only
    rw [hread]
    dsimp only
    rw [if_neg (by decide)]
    by_cases hdx : dx ≠ 0
    · rw [if_pos hdx]
      have hcb : P0.canBePushed s.tiles ⟨s.player.x + dx, s.player.y + 0⟩ dx
          = some false := by
        unfold P0.canBePushed
        dsimp only
        rw [hread]
        dsimp only
        rw [if_neg (by decide)]
      rw [hcb]
      dsimp only
      rw [if_neg (by simp)]
    · rw [if_neg hdx]
  · intro s dy hrow
    have hread : readC s.tiles (s.player.y + dy) (s.player.x + 0) = none :=
      readC_none.mpr hrow
    unfold P0.move
    dsimp only
    rw [hread]

/-- Witness for the amended C2 on a one-cell board: the horizontal
out-of-bounds action is a silent no-op, the vertical one throws with the
state unchanged. -/
theorem C2_out_of_bounds_amended_witness :
    P0.move 1 0 ⟨[[P0.Tile.PLAYER]], ⟨0, 0⟩⟩
        = ⟨false, ⟨[[P0.Tile.PLAYER]], ⟨0, 0⟩⟩⟩ ∧
    P0.move 0 (-1) ⟨[[P0.Tile.PLAYER]], ⟨0, 0⟩⟩
        = ⟨true, ⟨[[P0.Tile.PLAYER]], ⟨0, 0⟩⟩⟩ :=
  ⟨C2_out_of_bounds_amended.1 ⟨[[P0.Tile.PLAYER]], ⟨0, 0⟩⟩ 1 [P0.Tile.PLAYER]
      (by decide) (by decide),
    C2_out_of_bounds_amended.2 ⟨[[P0.Tile.PLAYER]], ⟨0, 0⟩⟩ (-1) (by decide)⟩

/-- Claim C3: pushes happen only on horizontal actions.  A vertical
action into a stone, box, wall or lock is a no-op; a horizontal action
into a stone or box succeeds exactly when the cell one step further is
`AIR` and the cell below the target is not `AIR`, in which case the
pushed tile lands one step further, the target receives the player, and
the old player cell is cleared; otherwise nothing changes. -/
theorem C3_push_only_horizontal :
    (∀ (s : P0.State) (dy : Int) (t : P0.Tile),
       readC s.tiles (s.player.y + dy) s.player.x = some (some t) →
       (t = P0.Tile.STONE ∨ t = P0.Tile.BOX ∨ t = P0.Tile.UNBREAKABLE ∨
         t = P0.Tile.LOCK1 ∨ t = P0.Tile.LOCK2) →
       P0.move 0 dy s = ⟨false, s⟩) ∧
    (∀ (s : P0.State) (dx : Int) (t : P0.Tile) (a bv : Option P0.Tile),
       dx ≠ 0 →
       readC s.tiles s.player.y s.player.x = some (some P0.Tile.PLAYER) →
       readC s.tiles s.player.y (s.player.x + dx) = some (some t) →
       (t = P0.Tile.STONE ∨ t = P0.Tile.BOX) →
       readC s.tiles s.player.y (s.player.x + dx + dx) = some a →
       readC s.tiles (s.player.y + 1) (s.player.x + dx) = some bv →
       ((a = some P0.Tile.AIR ∧ bv ≠ some P0.Tile.AIR →
          P0.move dx 0 s = ⟨false,
            { tiles := setT (setT (setT (setT s.tiles s.player.y
                (s.player.x + dx + dx) t) s.player.y (s.player.x + dx)
                P0.Tile.AIR) s.player.y (s.player.x + dx) P0.Tile.PLAYER)
                s.player.y s.player.x P0.Tile.AIR,
              player := ⟨s.player.x + dx, s.player.y⟩ }⟩) ∧
        (¬(a = some P0.Tile.AIR ∧ bv ≠ some P0.Tile.AIR) →
          P0.move dx 0 s = ⟨false, s⟩))) := by
  constructor
  · intro s dy t hT ht
    have hcons : ¬(P0.canBeConsumed (some t) = true) := by
      rcases ht with h|h|h|h|h <;> subst h <;> decide
    unfold P0.move
    dsimp only
    simp only [add_zero]
    rw [hT]
    dsimp only
    rw [if_neg hcons, if_neg (by simp)]
  · intro s dx t a bv hdx hP hT ht hA hB
    have hcons : ¬(P0.canBeConsumed (some t) = true) := by
      rcases ht with h|h <;> subst h <;> decide
    have hcf : P0.canFall (some t) = true := by
      rcases ht with h|h <;> subst h <;> decide
    have htP : t ≠ P0.Tile.PLAYER := by
      rcases ht with h|h <;> subst h <;> decide
    have htA : t ≠ P0.Tile.AIR := by
      rcases ht with h|h <;> subst h <;> decide
    have hcb := P0.canBePushed_eval (c := ⟨s.player.x + dx, s.player.y⟩)
      hT hcf hA hB
    constructor
    · rintro ⟨ha, hb⟩
      subst ha
      obtain ⟨hpy, hpx, hPcell⟩ := readC_some_some.mp hP
      obtain ⟨hpy2, hcx, hTcell⟩ := readC_some_some.mp hT
      obtain ⟨hpy3, hcxdx, hAcell⟩ := readC_some_some.mp hA
      have hcbt : P0.canBePushed s.tiles ⟨s.player.x + dx, s.player.y⟩ dx
          = some true := by
        rw [hcb, if_pos rfl]
        simp [hb]
      unfold P0.move
      dsimp only
      simp only [add_zero]
      rw [hT]
      dsimp only
      rw [if_neg hcons, if_pos hdx, hcbt]
      dsimp only
      rw [if_pos rfl]
      rw [P0.moveTileG_eq hT]
      dsimp only
      have hne_sd : ¬(s.player.y.toNat = s.player.y.toNat ∧
          (s.player.x + dx).toNat = (s.player.x + dx + dx).toNat) := by
        intro hcon
        rw [← hcon.2] at hAcell
        rw [hTcell] at hAcell
        exact htA (Option.some.inj hAcell)
      have hne_pd : ¬(s.player.y.toNat = s.player.y.toNat ∧
          s.player.x.toNat = (s.player.x + dx + dx).toNat) := by
        intro hcon
        rw [← hcon.2] at hAcell
        rw [hPcell] at hAcell
        exact (by decide : P0.Tile.PLAYER ≠ P0.Tile.AIR) (Option.some.inj hAcell)
      have hne_ps : ¬(s.player.y.toNat = s.player.y.toNat ∧
          s.player.x.toNat = (s.player.x + dx).toNat) := by
        intro hcon
        rw [← hcon.2] at hTcell
        rw [hPcell] at hTcell
        exact htP (Option.some.inj hTcell).symm
      have hmid_t : cellAt (setN s.tiles s.player.y.toNat
          (s.player.x + dx + dx).toNat t) s.player.y.toNat
          (s.player.x + dx).toNat = some t := by
        rw [cellAt_setN_ne _ _ _ hne_sd]
        exact hTcell
      have hm1_air : cellAt (setN (setN s.tiles s.player.y.toNat
          (s.player.x + dx + dx).toNat t) s.player.y.toNat
          (s.player.x + dx).toNat P0.Tile.AIR) s.player.y.toNat
          (s.player.x + dx).toNat = some P0.Tile.AIR := by
        obtain ⟨l1, l2⟩ := cellAt_lt hmid_t
        exact cellAt_setN_self l1 l2 _
      have hmid_p : cellAt (setN s.tiles s.player.y.toNat
          (s.player.x + dx + dx).toNat t) s.player.y.toNat
          s.player.x.toNat = some P0.Tile.PLAYER := by
        rw [cellAt_setN_ne _ _ _ hne_pd]
        exact hPcell
      have hm1_p : cellAt (setN (setN s.tiles s.player.y.toNat
          (s.player.x + dx + dx).toNat t) s.player.y.toNat
          (s.player.x + dx).toNat P0.Tile.AIR) s.player.y.toNat
          s.player.x.toNat = some P0.Tile.PLAYER := by
        rw [cellAt_setN_ne _ _ _ hne_ps]
        exact hmid_p
      have h1 : readC (setT (setT s.tiles s.player.y (s.player.x + dx + dx) t)
          s.player.y (s.player.x + dx) P0.Tile.AIR) s.player.y (s.player.x + dx)
          = some (some P0.Tile.AIR) := by
        rw [setT_nonneg hpy hcxdx, setT_nonneg hpy hcx]
        exact readC_some_some.mpr ⟨hpy, hcx, hm1_air⟩
      have h2 : readC (P0.maybeUnlock (some P0.Tile.AIR)
          (setT (setT s.tiles s.player.y (s.player.x + dx + dx) t)
            s.player.y (s.player.x + dx) P0.Tile.AIR)) s.player.y s.player.x
          = some (some P0.Tile.PLAYER) := by
        show readC (setT (setT s.tiles s.player.y (s.player.x + dx + dx) t)
          s.player.y (s.player.x + dx) P0.Tile.AIR) s.player.y s.player.x = _
        rw [setT_nonneg hpy hcxdx, setT_nonneg hpy hcx]
        exact readC_some_some.mpr ⟨hpy, hpx, hm1_p⟩
      rw [P0.movePlayerTo_eq h1 h2]
      rfl
    · intro hnab
      have hcbf : P0.canBePushed s.tiles ⟨s.player.x + dx, s.player.y⟩ dx
          = some false := by
        rw [hcb]
        by_cases ha : a = some P0.Tile.AIR
        · rw [if_pos ha]
          have hbv : bv = some P0.Tile.AIR := by
            by_contra hc
            exact hnab ⟨ha, hc⟩
          simp [hbv]
        · rw [if_neg ha]
      unfold P0.move
      dsimp only
      simp only [add_zero]
      rw [hT]
      dsimp only
      rw [if_neg hcons, if_pos hdx, hcbf]
      dsimp only
      rw [if_neg (by simp)]

/-- Witness for C3: a vertical action into a stone is a no-op, and a
horizontal push with empty space beyond and solid ground below the
target shifts the stone and the player by one cell. -/
theorem C3_push_only_horizontal_witness :
    P0.move 0 1 ⟨[[P0.Tile.PLAYER], [P0.Tile.STONE]], ⟨0, 0⟩⟩
        = ⟨false, ⟨[[P0.Tile.PLAYER], [P0.Tile.STONE]], ⟨0, 0⟩⟩⟩ ∧
    P0.move 1 0 ⟨[[P0.Tile.PLAYER, P0.Tile.STONE, P0.Tile.AIR],
        [P0.Tile.UNBREAKABLE, P0.Tile.UNBREAKABLE, P0.Tile.UNBREAKABLE]], ⟨0, 0⟩⟩
      = ⟨false, ⟨[[P0.Tile.AIR, P0.Tile.PLAYER, P0.Tile.STONE],
        [P0.Tile.UNBREAKABLE, P0.Tile.UNBREAKABLE, P0.Tile.UNBREAKABLE]],
        ⟨1, 0⟩⟩⟩ := by
  constructor
  · exact C3_push_only_horizontal.1 _ 1 P0.Tile.STONE (by decide) (by decide)
  · have h := (C3_push_only_horizontal.2
      ⟨[[P0.Tile.PLAYER, P0.Tile.STONE, P0.Tile.AIR],
        [P0.Tile.UNBREAKABLE, P0.Tile.UNBREAKABLE, P0.Tile.UNBREAKABLE]], ⟨0, 0⟩⟩
      1 P0.Tile.STONE (some P0.Tile.AIR) (some P0.Tile.UNBREAKABLE)
      (by decide) (by decide) (by decide) (by decide) (by decide) (by decide)).1
      (by decide)
    rw [h]
    decide

/-- Claim C4: moving the player onto a key removes every cell holding the
paired lock (zero, one or many), the key's own cell then receives the
player, and the old player cell is cleared; the unlock sweep runs before
the player tile is written. -/
theorem C4_key_unlocks_globally (s : P0.State) (dx dy : Int) (k lock : P0.Tile)
    (hkl : P0.locksAndKeys k = some lock)
    (hP : readC s.tiles s.player.y s.player.x = some (some P0.Tile.PLAYER))
    (hK : readC s.tiles (s.player.y + dy) (s.player.x + dx) = some (some k)) :
    P0.move dx dy s =
      ⟨false,
        { tiles := setT (setT (P0.removeG lock s.tiles) (s.player.y + dy)
            (s.player.x + dx) P0.Tile.PLAYER) s.player.y s.player.x P0.Tile.AIR,
          player := ⟨s.player.x + dx, s.player.y + dy⟩ }⟩ ∧
    (∀ y x : Nat, cellAt s.tiles y x = some lock →
      cellAt (P0.move dx dy s).state.tiles y x = some P0.Tile.AIR) := by
  have hkc : (k = P0.Tile.KEY1 ∧ lock = P0.Tile.LOCK1) ∨
      (k = P0.Tile.KEY2 ∧ lock = P0.Tile.LOCK2) := by
    cases k <;> simp [P0.locksAndKeys] at hkl <;> tauto
  have hcons : P0.canBeConsumed (some k) = true := by
    rcases hkc with ⟨h, _⟩ | ⟨h, _⟩ <;> subst h <;> decide
  have hmu : P0.maybeUnlock (some k) s.tiles = P0.removeG lock s.tiles := by
    rcases hkc with ⟨h1, h2⟩ | ⟨h1, h2⟩ <;> subst h1 <;> subst h2 <;> rfl
  have hlP : lock ≠ P0.Tile.PLAYER := by
    rcases hkc with ⟨_, h⟩ | ⟨_, h⟩ <;> subst h <;> decide
  have hlA : lock ≠ P0.Tile.AIR := by
    rcases hkc with ⟨_, h⟩ | ⟨_, h⟩ <;> subst h <;> decide
  have hklne : k ≠ lock := by
    rcases hkc with ⟨h1, h2⟩ | ⟨h1, h2⟩ <;> subst h1 <;> subst h2 <;> decide
  obtain ⟨hpy, hpx, hPcell⟩ := readC_some_some.mp hP
  obtain ⟨hcy, hcx, hKcell⟩ := readC_some_some.mp hK
  have h2 : readC (P0.maybeUnlock (some k) s.tiles) s.player.y s.player.x
      = some (some P0.Tile.PLAYER) := by
    rw [hmu]
    refine readC_some_some.mpr ⟨hpy, hpx, ?_⟩
    rw [P0.cellAt_removeG lock hlA,
      if_neg (by rw [hPcell]; exact fun hc => hlP (Option.some.inj hc).symm)]
    exact hPcell
  have heq : P0.move dx dy s =
      ⟨false,
        { tiles := setT (setT (P0.removeG lock s.tiles) (s.player.y + dy)
            (s.player.x + dx) P0.Tile.PLAYER) s.player.y s.player.x P0.Tile.AIR,
          player := ⟨s.player.x + dx, s.player.y + dy⟩ }⟩ := by
    unfold P0.move
    dsimp only
    rw [hK]
    dsimp only
    rw [if_pos hcons, P0.movePlayerTo_eq hK h2, hmu]
  refine ⟨heq, ?_⟩
  intro y x hlk
  rw [heq]
  dsimp only
  rw [setT_nonneg hcy hcx, setT_nonneg hpy hpx]
  have hne1 : ¬(y = s.player.y.toNat ∧ x = s.player.x.toNat) := by
    intro hcon
    rw [hcon.1, hcon.2] at hlk
    rw [hPcell] at hlk
    exact hlP (Option.some.inj hlk).symm
  have hne2 : ¬(y = (s.player.y + dy).toNat ∧ x = (s.player.x + dx).toNat) := by
    intro hcon
    rw [hcon.1, hcon.2] at hlk
    rw [hKcell] at hlk
    exact hklne (Option.some.inj hlk)
  rw [cellAt_setN_ne _ _ _ hne1, cellAt_setN_ne _ _ _ hne2,
    P0.cellAt_removeG lock hlA, if_pos hlk]

/-- Witness for C4: stepping onto `KEY1` clears the `LOCK1` cell
elsewhere in the row and puts the player on the key's cell. -/
theorem C4_key_unlocks_globally_witness :
    P0.move 1 0 ⟨[[P0.Tile.PLAYER, P0.Tile.KEY1, P0.Tile.LOCK1]], ⟨0, 0⟩⟩
        = ⟨false, ⟨[[P0.Tile.AIR, P0.Tile.PLAYER, P0.Tile.AIR]], ⟨1, 0⟩⟩⟩ ∧
    cellAt (P0.move 1 0 ⟨[[P0.Tile.PLAYER, P0.Tile.KEY1, P0.Tile.LOCK1]],
        ⟨0, 0⟩⟩).state.tiles 0 2 = some P0.Tile.AIR := by
  have h := C4_key_unlocks_globally
    ⟨[[P0.Tile.PLAYER, P0.Tile.KEY1, P0.Tile.LOCK1]], ⟨0, 0⟩⟩ 1 0
    P0.Tile.KEY1 P0.Tile.LOCK1 (by decide) (by decide) (by decide)
  constructor
  · rw [h.1]
    decide
  · exact h.2 0 2 (by decide)

/-- Counterexample to C5: on a one-column board with two stacked stones
over two empty cells, one `dropTilesOneCell` call of `part_000` drops the
lower stone two cells (the lazily re-evaluated top-to-bottom generator
re-examines the tile it just moved), instead of moving only the bottom
tile down one row. -/
theorem C5_fall_speed_counterexample :
    P0.dropTilesOneCell [[P0.Tile.STONE], [P0.Tile.STONE], [P0.Tile.AIR],
        [P0.Tile.AIR], [P0.Tile.UNBREAKABLE]]
      = [[P0.Tile.STONE], [P0.Tile.AIR], [P0.Tile.AIR], [P0.Tile.STONE],
        [P0.Tile.UNBREAKABLE]] ∧
    P0.dropTilesOneCell [[P0.Tile.STONE], [P0.Tile.STONE], [P0.Tile.AIR],
        [P0.Tile.AIR], [P0.Tile.UNBREAKABLE]]
      ≠ [[P0.Tile.STONE], [P0.Tile.AIR], [P0.Tile.STONE], [P0.Tile.AIR],
        [P0.Tile.UNBREAKABLE]] := by
  decide

/-- Claim C5, amended: on the two-tile stack over empty space,
`index.ts`'s bottom-to-top `dropTiles` moves *both* tiles down one row in
a single call (the stack descends intact, marked falling, and no tile
falls more than one cell), while `part_000`'s top-to-bottom lazily
re-evaluated `dropTilesOneCell` drops the bottom tile all the way to
support in one call and leaves the top tile in place. -/
theorem C5_fall_speed_amended :
    V1.dropTiles [[V1.Tile.STONE], [V1.Tile.STONE], [V1.Tile.AIR], [V1.Tile.AIR],
        [V1.Tile.UNBREAKABLE]]
      = ⟨false, [[V1.Tile.AIR], [V1.Tile.FALLING_STONE], [V1.Tile.FALLING_STONE],
        [V1.Tile.AIR], [V1.Tile.UNBREAKABLE]]⟩ ∧
    P0.dropTilesOneCell [[P0.Tile.STONE], [P0.Tile.STONE], [P0.Tile.AIR],
        [P0.Tile.AIR], [P0.Tile.UNBREAKABLE]]
      = [[P0.Tile.STONE], [P0.Tile.AIR], [P0.Tile.AIR], [P0.Tile.STONE],
        [P0.Tile.UNBREAKABLE]] := by
  decide

/-- Claim C6: a settled board — no stone or box cell has `AIR` directly
below it — is left exactly unchanged by `dropTilesOneCell`. -/
theorem C6_gravity_identity_on_settled (g : Grid P0.Tile)
    (h : P0.settledB g = true) : P0.dropTilesOneCell g = g := by
  have hcell : ∀ y x, P0.dropCell g y x = g := by
    intro y x
    unfold P0.dropCell
    by_cases h1 : P0.canFall (cellAt g y x) = true
    · rw [if_pos h1]
      obtain ⟨u, hu, hu2⟩ := P0.canFall_true h1
      obtain ⟨hylt, hxlt⟩ := cellAt_lt hu
      have hs := h
      rw [P0.settledB, List.all_eq_true] at hs
      have hrow := hs y (List.mem_range.mpr hylt)
      rw [List.all_eq_true] at hrow
      have hcell2 := hrow x (List.mem_range.mpr hxlt)
      simp only [h1, Bool.true_and, Bool.not_eq_eq_eq_not, Bool.not_true,
        decide_eq_false_iff_not] at hcell2
      by_cases h2 : y < g.length - 1
      · rw [if_pos h2, if_neg hcell2]
      · rw [if_neg h2]
    · rw [if_neg h1]
  have hcells : ∀ (xs : List Nat) (y : Nat), P0.dropCells y g xs = g := by
    intro xs
    induction xs with
    | nil => intro y; rfl
    | cons x xs ih =>
      intro y
      show P0.dropCells y (P0.dropCell g y x) xs = g
      rw [hcell y x]
      exact ih y
  have hrows : ∀ ys : List Nat, P0.dropRows g ys = g := by
    intro ys
    induction ys with
    | nil => rfl
    | cons y ys ih =>
      show P0.dropRows (P0.dropCells y g (List.range (rowLen g y))) ys = g
      rw [hcells]
      exact ih
  exact hrows _

/-- Witness for C6: a stone resting on a wall is settled and the gravity
sweep leaves the board identical. -/
theorem C6_gravity_identity_on_settled_witness :
    P0.settledB [[P0.Tile.STONE], [P0.Tile.UNBREAKABLE]] = true ∧
    P0.dropTilesOneCell [[P0.Tile.STONE], [P0.Tile.UNBREAKABLE]]
      = [[P0.Tile.STONE], [P0.Tile.UNBREAKABLE]] :=
  ⟨by decide, C6_gravity_identity_on_settled _ (by decide)⟩

/-- Counterexample to C7: the constructor never aborts.  With zero
`PLAYER` tiles a full board value is produced with an undefined player
and the `console.assert` condition even holds; with two `PLAYER` tiles
the assertion condition fails, but `console.assert` only logs, and a
board pointing at the first player cell is produced all the same. -/
theorem C7_constructor_counterexample :
    P0.mkBoard [[P0.Tile.UNBREAKABLE]]
        = ⟨[[P0.Tile.UNBREAKABLE]], none, true⟩ ∧
    P0.mkBoard [[P0.Tile.PLAYER, P0.Tile.PLAYER]]
        = ⟨[[P0.Tile.PLAYER, P0.Tile.PLAYER]], some ⟨0, 0⟩, false⟩ := by
  decide

/-- Claim C7, amended: initialization always produces a board value
whose `tiles` are the given grid; the `player` field is the first
`PLAYER` cell in row-major order and is undefined exactly when the grid
holds no `PLAYER` tile; the `console.assert` condition holds exactly when
the grid holds at most one `PLAYER` tile (and on failure it only logs —
nothing aborts). -/
theorem C7_constructor_amended (g : Grid P0.Tile) :
    (P0.mkBoard g).tiles = g ∧
    ((P0.mkBoard g).player = none ↔ countTile g P0.Tile.PLAYER = 0) ∧
    ((P0.mkBoard g).assertOk = true ↔ countTile g P0.Tile.PLAYER ≤ 1) := by
  refine ⟨rfl, ?_, ?_⟩
  · show (P0.playerCells g).head? = none ↔ _
    rw [List.head?_eq_none_iff, ← List.length_eq_zero, length_playerCells]
  · show decide ((P0.playerCells g).drop 1 = []) = true ↔ _
    rw [decide_eq_true_iff, List.drop_eq_nil_iff, length_playerCells]

theorem mem_of_getElem_some {α : Type} {l : List α} {n : Nat} {a : α}
    (h : l[n]? = some a) : a ∈ l := by
  obtain ⟨hlt, rfl⟩ := List.getElem?_eq_some_iff.mp h
  exact List.getElem_mem hlt

/-- Claim C8: a blocked action — in-bounds target that is neither in the
`empty` set nor a pushable whose `canPush` conditions hold — leaves the
grid and the player position exactly as they were (also at the point of
the `canPush` bottom-row throw, where no mutation has happened yet). -/
theorem C8_blocked_changes_nothing (s : V1.State) (i : V1.Input) (t : V1.Tile)
    (hT : readC s.map (V1.targetOf i s.player).y (V1.targetOf i s.player).x
      = some (some t))
    (hO : V1.canOccupy (some t) = false)
    (hP : i = V1.Input.LEFT ∨ i = V1.Input.RIGHT →
      V1.canPush s.map (V1.targetOf i s.player) (V1.dxOf i) ≠ some true) :
    (V1.applyInput i s).state = s := by
  cases i with
  | UP =>
    show (V1.moveVertical (-1) s).state = s
    unfold V1.moveVertical
    dsimp only
    have hT2 : readC s.map (s.player.y + -1) s.player.x = some (some t) := hT
    rw [hT2]
    dsimp only
    rw [if_neg (by simp [hO])]
  | DOWN =>
    show (V1.moveVertical 1 s).state = s
    unfold V1.moveVertical
    dsimp only
    have hT2 : readC s.map (s.player.y + 1) s.player.x = some (some t) := hT
    rw [hT2]
    dsimp only
    rw [if_neg (by simp [hO])]
  | LEFT =>
    show (V1.moveHorizontal (-1) s).state = s
    unfold V1.moveHorizontal
    dsimp only
    have hT2 : readC s.map s.player.y (s.player.x + -1) = some (some t) := hT
    rw [hT2]
    dsimp only
    rw [if_neg (by simp [hO])]
    have hP2 : V1.canPush s.map ⟨s.player.x + -1, s.player.y⟩ (-1) ≠ some true :=
      hP (Or.inl rfl)
    cases hcp : V1.canPush s.map ⟨s.player.x + -1, s.player.y⟩ (-1) with
    | none => rfl
    | some b =>
      dsimp only
      cases b with
      | true => exact absurd hcp hP2
      | false =>
        rw [if_neg (by simp)]
  | RIGHT =>
    show (V1.moveHorizontal 1 s).state = s
    unfold V1.moveHorizontal
    dsimp only
    have hT2 : readC s.map s.player.y (s.player.x + 1) = some (some t) := hT
    rw [hT2]
    dsimp only
    rw [if_neg (by simp [hO])]
    have hP2 : V1.canPush s.map ⟨s.player.x + 1, s.player.y⟩ 1 ≠ some true :=
      hP (Or.inr rfl)
    cases hcp : V1.canPush s.map ⟨s.player.x + 1, s.player.y⟩ 1 with
    | none => rfl
    | some b =>
      dsimp only
      cases b with
      | true => exact absurd hcp hP2
      | false =>
        rw [if_neg (by simp)]

/-- Witness for C8: pushing rightward into a wall changes nothing. -/
theorem C8_blocked_changes_nothing_witness :
    (V1.applyInput V1.Input.RIGHT
      ⟨[[V1.Tile.PLAYER, V1.Tile.UNBREAKABLE],
        [V1.Tile.UNBREAKABLE, V1.Tile.UNBREAKABLE]], ⟨0, 0⟩⟩).state
      = ⟨[[V1.Tile.PLAYER, V1.Tile.UNBREAKABLE],
        [V1.Tile.UNBREAKABLE, V1.Tile.UNBREAKABLE]], ⟨0, 0⟩⟩ :=
  C8_blocked_changes_nothing
    ⟨[[V1.Tile.PLAYER, V1.Tile.UNBREAKABLE],
      [V1.Tile.UNBREAKABLE, V1.Tile.UNBREAKABLE]], ⟨0, 0⟩⟩
    V1.Input.RIGHT V1.Tile.UNBREAKABLE (by decide) (by decide) (by decide)

/-!
## Gravity lemmas for `index.ts`
-/

theorem V1.norm_norm (u : V1.Tile) : V1.norm (V1.norm u) = V1.norm u := by
  cases u <;> rfl

theorem V1.dropCell_spec (m : Grid V1.Tile) (y x : Nat) :
    V1.dropCell m y x = some m ∨
    (∃ u, (u = V1.Tile.FALLING_STONE ∨ u = V1.Tile.FALLING_BOX) ∧
      cellAt m y x = some u ∧
      V1.dropCell m y x = some (setN m y x (V1.norm u))) ∨
    (∃ u v, V1.isPushableT u = true ∧ cellAt m y x = some u ∧
      V1.norm v = V1.norm u ∧ y + 1 < m.length ∧
      cellAt m (y + 1) x = some V1.Tile.AIR ∧
      V1.dropCell m y x = some (setN (setN m (y + 1) x v) y x V1.Tile.AIR)) ∨
    (∃ u, V1.isPushableT u = true ∧ cellAt m y x = some u ∧
      m.length ≤ y + 1 ∧ V1.dropCell m y x = none) := by
  unfold V1.dropCell
  dsimp only
  by_cases h1 : (cellAt m y x = some V1.Tile.STONE ∨
      cellAt m y x = some V1.Tile.FALLING_STONE)
  · rw [if_pos h1]
    cases hrow : m[y + 1]? with
    | none =>
      have hlen : m.length ≤ y + 1 := by rwa [← List.getElem?_eq_none_iff]
      rcases h1 with h | h
      · exact Or.inr (Or.inr (Or.inr ⟨V1.Tile.STONE, by decide, h, hlen, rfl⟩))
      · exact Or.inr (Or.inr (Or.inr ⟨V1.Tile.FALLING_STONE, by decide, h, hlen,
          rfl⟩))
    | some row =>
      have hylt : y + 1 < m.length := getElem?_lt hrow
      dsimp only
      by_cases h2 : row[x]? = some V1.Tile.AIR
      · rw [if_pos h2]
        have hair : cellAt m (y + 1) x = some V1.Tile.AIR :=
          cellAt_of_getElem hrow h2
        rcases h1 with h | h
        · exact Or.inr (Or.inr (Or.inl ⟨V1.Tile.STONE, V1.Tile.FALLING_STONE,
            by decide, h, by decide, hylt, hair, rfl⟩))
        · exact Or.inr (Or.inr (Or.inl ⟨V1.Tile.FALLING_STONE,
            V1.Tile.FALLING_STONE, by decide, h, by decide, hylt, hair, rfl⟩))
      · rw [if_neg h2]
        by_cases h3 : cellAt m y x = some V1.Tile.FALLING_STONE
        · rw [if_pos h3]
          exact Or.inr (Or.inl ⟨V1.Tile.FALLING_STONE, Or.inl rfl, h3, rfl⟩)
        · rw [if_neg h3]
          exact Or.inl rfl
  · rw [if_neg h1]
    by_cases h4 : (cellAt m y x = some V1.Tile.BOX ∨
        cellAt m y x = some V1.Tile.FALLING_BOX)
    · rw [if_pos h4]
      cases hrow : m[y + 1]? with
      | none =>
        have hlen : m.length ≤ y + 1 := by rwa [← List.getElem?_eq_none_iff]
        rcases h4 with h | h
        · exact Or.inr (Or.inr (Or.inr ⟨V1.Tile.BOX, by decide, h, hlen, rfl⟩))
        · exact Or.inr (Or.inr (Or.inr ⟨V1.Tile.FALLING_BOX, by decide, h, hlen,
            rfl⟩))
      | some row =>
        have hylt : y + 1 < m.length := getElem?_lt hrow
        dsimp only
        by_cases h2 : row[x]? = some V1.Tile.AIR
        · rw [if_pos h2]
          have hair : cellAt m (y + 1) x = some V1.Tile.AIR :=
            cellAt_of_getElem hrow h2
          rcases h4 with h | h
          · exact Or.inr (Or.inr (Or.inl ⟨V1.Tile.BOX, V1.Tile.FALLING_BOX,
              by decide, h, by decide, hylt, hair, rfl⟩))
          · exact Or.inr (Or.inr (Or.inl ⟨V1.Tile.FALLING_BOX,
              V1.Tile.FALLING_BOX, by decide, h, by decide, hylt, hair, rfl⟩))
        · rw [if_neg h2]
          by_cases h3 : cellAt m y x = some V1.Tile.FALLING_BOX
          · rw [if_pos h3]
            exact Or.inr (Or.inl ⟨V1.Tile.FALLING_BOX, Or.inr rfl, h3, rfl⟩)
          · rw [if_neg h3]
            exact Or.inl rfl
    · rw [if_neg h4, if_neg (fun h5 => h1 (Or.inr h5)),
        if_neg (fun h6 => h4 (Or.inr h6))]
      exact Or.inl rfl

theorem V1.dropCell_len {m m1 : Grid V1.Tile} {y x : Nat}
    (h : V1.dropCell m y x = some m1) : m1.length = m.length := by
  rcases V1.dropCell_spec m y x with hs | ⟨u, _, _, hs⟩ |
    ⟨u, v, _, _, _, _, _, hs⟩ | ⟨u, _, _, _, hs⟩
  · rw [hs] at h
    rw [← Option.some.inj h]
  · rw [hs] at h
    rw [← Option.some.inj h]
    simp [length_setN]
  · rw [hs] at h
    rw [← Option.some.inj h]
    simp [length_setN]
  · rw [hs] at h
    exact Option.noConfusion h

theorem V1.dropCell_isSome (m : Grid V1.Tile) (y x : Nat)
    (hlt : y + 1 < m.length) : V1.dropCell m y x ≠ none := by
  intro hnone
  rcases V1.dropCell_spec m y x with hs | ⟨u, _, _, hs⟩ |
    ⟨u, v, _, _, _, _, _, hs⟩ | ⟨u, _, _, hlen, hs⟩
  · rw [hs] at hnone; exact Option.noConfusion hnone
  · rw [hs] at hnone; exact Option.noConfusion hnone
  · rw [hs] at hnone; exact Option.noConfusion hnone
  · omega

theorem V1.dropCell_bottom (m : Grid V1.Tile) (y x : Nat)
    (hnp : ∀ u, cellAt m y x = some u → V1.isPushableT u = false) :
    V1.dropCell m y x = some m := by
  rcases V1.dropCell_spec m y x with hs | ⟨u, hu, hcell, hs⟩ |
    ⟨u, v, hu, hcell, _, _, _, hs⟩ | ⟨u, hu, hcell, _, hs⟩
  · exact hs
  · have h2 := hnp u hcell
    rcases hu with h | h <;> subst h <;> simp [V1.isPushableT] at h2
  · rw [hnp u hcell] at hu
    exact Bool.noConfusion hu
  · rw [hnp u hcell] at hu
    exact Bool.noConfusion hu

theorem V1.dropCells_cons (y : Nat) (m : Grid V1.Tile) (x : Nat) (xs : List Nat) :
    V1.dropCells y m (x :: xs)
      = match V1.dropCell m y x with
        | none => ⟨true, m⟩
        | some m1 => V1.dropCells y m1 xs := rfl

theorem V1.dropRows_cons (m : Grid V1.Tile) (y : Nat) (ys : List Nat) :
    V1.dropRows m (y :: ys)
      = if (V1.dropCells y m (List.range (rowLen m y))).crashed
        then V1.dropCells y m (List.range (rowLen m y))
        else V1.dropRows (V1.dropCells y m (List.range (rowLen m y))).state ys :=
  rfl

theorem V1.dropCells_preserve {P : Grid V1.Tile → Prop}
    (hstep : ∀ m y x m1, V1.dropCell m y x = some m1 → P m → P m1) :
    ∀ (xs : List Nat) (y : Nat) (m : Grid V1.Tile),
      P m → P (V1.dropCells y m xs).state := by
  intro xs
  induction xs with
  | nil => intro y m hm; exact hm
  | cons x xs ih =>
    intro y m hm
    rw [V1.dropCells_cons]
    cases hdc : V1.dropCell m y x with
    | none => exact hm
    | some m1 => exact ih y m1 (hstep m y x m1 hdc hm)

theorem V1.dropRows_preserve {P : Grid V1.Tile → Prop}
    (hstep : ∀ m y x m1, V1.dropCell m y x = some m1 → P m → P m1) :
    ∀ (ys : List Nat) (m : Grid V1.Tile), P m → P (V1.dropRows m ys).state := by
  intro ys
  induction ys with
  | nil => intro m hm; exact hm
  | cons y ys ih =>
    intro m hm
    rw [V1.dropRows_cons]
    have hr := V1.dropCells_preserve hstep (List.range (rowLen m y)) y m hm
    by_cases hc : (V1.dropCells y m (List.range (rowLen m y))).crashed = true
    · rw [if_pos hc]
      exact hr
    · rw [if_neg hc]
      exact ih _ hr

theorem V1.dropTiles_pres {P : Grid V1.Tile → Prop}
    (hstep : ∀ m y x m1, V1.dropCell m y x = some m1 → P m → P m1)
    (m : Grid V1.Tile) (hm : P m) : P (V1.dropTiles m).state :=
  V1.dropRows_preserve hstep _ m hm

theorem V1.dropCells_nocrash :
    ∀ (xs : List Nat) (y : Nat) (m : Grid V1.Tile), y + 1 < m.length →
      (V1.dropCells y m xs).crashed = false ∧
        (V1.dropCells y m xs).state.length = m.length := by
  intro xs
  induction xs with
  | nil => intro y m h; exact ⟨rfl, rfl⟩
  | cons x xs ih =>
    intro y m h
    rw [V1.dropCells_cons]
    cases hdc : V1.dropCell m y x with
    | none => exact absurd hdc (V1.dropCell_isSome m y x h)
    | some m1 =>
      have hlen := V1.dropCell_len hdc
      obtain ⟨hc, hl⟩ := ih y m1 (by omega)
      exact ⟨hc, by rw [hl, hlen]⟩

theorem V1.dropCells_id (y : Nat) :
    ∀ (xs : List Nat) (m : Grid V1.Tile),
      (∀ x u, cellAt m y x = some u → V1.isPushableT u = false) →
      V1.dropCells y m xs = ⟨false, m⟩ := by
  intro xs
  induction xs with
  | nil => intro m hm; rfl
  | cons x xs ih =>
    intro m hm
    rw [V1.dropCells_cons, V1.dropCell_bottom m y x (hm x)]
    exact ih m hm

theorem V1.dropRows_nocrash :
    ∀ (ys : List Nat) (m : Grid V1.Tile), (∀ y ∈ ys, y + 1 < m.length) →
      (V1.dropRows m ys).crashed = false ∧
        (V1.dropRows m ys).state.length = m.length := by
  intro ys
  induction ys with
  | nil => intro m hys; exact ⟨rfl, rfl⟩
  | cons y ys ih =>
    intro m hys
    have hy := hys y (List.mem_cons_self y ys)
    obtain ⟨hc, hl⟩ := V1.dropCells_nocrash (List.range (rowLen m y)) y m hy
    rw [V1.dropRows_cons, if_neg (by rw [hc]; exact Bool.false_ne_true)]
    obtain ⟨hc2, hl2⟩ := ih (V1.dropCells y m (List.range (rowLen m y))).state
      (fun y2 hy2 => by rw [hl]; exact hys y2 (List.mem_cons_of_mem _ hy2))
    exact ⟨hc2, by rw [hl2, hl]⟩

/-- Counterexample to C9: `index.ts`'s `dropTiles` does scan the
bottom-most row; with a stone there it reads `map[map.length][x]`, i.e.
indexes into `undefined`, and throws — the operation is not total. -/
theorem C9_gravity_bounds_counterexample :
    (V1.dropTiles [[V1.Tile.STONE]]).crashed = true := by
  decide

/-- Claim C9, amended: `part_000`'s `dropTilesOneCell` guards
`y < tiles.length - 1`, so it never reads below the grid, is total, and
leaves every stone or box in the bottom row exactly where it is;
`index.ts`'s `dropTiles` scans the bottom row too and throws whenever a
(possibly falling) stone or box occupies it — it completes without
failure exactly on boards whose bottom row holds no such tile. -/
theorem C9_gravity_bounds_amended :
    (∀ (g : Grid P0.Tile) (x : Nat) (t : P0.Tile),
       P0.canFall (some t) = true →
       cellAt g (g.length - 1) x = some t →
       cellAt (P0.dropTilesOneCell g) (g.length - 1) x = some t) ∧
    (∀ g : Grid V1.Tile, V1.bottomRowClear g = true →
       (V1.dropTiles g).crashed = false) := by
  constructor
  · intro g x t hcf hcell
    have htA : t ≠ P0.Tile.AIR := by
      obtain ⟨u, hu, hu2⟩ := P0.canFall_true hcf
      have ht : t = u := Option.some.inj hu
      subst ht
      rcases hu2 with h | h <;> subst h <;> decide
    have hstep : ∀ (m : Grid P0.Tile) (y x2 : Nat),
        (m.length = g.length ∧ cellAt m (g.length - 1) x = some t) →
        ((P0.dropCell m y x2).length = g.length ∧
          cellAt (P0.dropCell m y x2) (g.length - 1) x = some t) := by
      intro m y x2 hm
      obtain ⟨hlen, hc⟩ := hm
      rcases P0.dropCell_cases m y x2 with heq | ⟨u, hu, hcu, hzy, hair, heq⟩
      · rw [heq]
        exact ⟨hlen, hc⟩
      · rw [heq]
        refine ⟨by rw [length_setN, length_setN]; exact hlen, ?_⟩
        have hne1 : ¬(g.length - 1 = y + 1 ∧ x = x2) := by
          intro hcon
          rw [hcon.1, hcon.2] at hc
          rw [hc] at hair
          exact htA (Option.some.inj hair)
        have hne2 : ¬(g.length - 1 = y ∧ x = x2) := by
          intro hcon
          rw [hlen] at hzy
          omega
        rw [cellAt_setN_ne _ _ _ hne2, cellAt_setN_ne _ _ _ hne1]
        exact hc
    exact (@P0.dropTilesOneCell_pres
      (fun m => m.length = g.length ∧ cellAt m (g.length - 1) x = some t)
      hstep g ⟨rfl, hcell⟩).2
  · intro g hclear
    have hbot : ∀ x u, cellAt g (g.length - 1) x = some u →
        V1.isPushableT u = false := by
      intro x u hcu
      obtain ⟨r, hr, hru⟩ := cellAt_some hcu
      have hmem : u ∈ r := mem_of_getElem_some hru
      have hrg : g.getD (g.length - 1) [] = r := by
        rw [List.getD_eq_getElem?_getD, hr]
        rfl
      rw [V1.bottomRowClear, hrg, List.all_eq_true] at hclear
      have h2 := hclear u hmem
      simpa using h2
    by_cases hg0 : g.length = 0
    · show (V1.dropRows g (List.range g.length).reverse).crashed = false
      rw [hg0]
      rfl
    · obtain ⟨n, hgl⟩ : ∃ n, g.length = n + 1 := ⟨g.length - 1, by omega⟩
      show (V1.dropRows g (List.range g.length).reverse).crashed = false
      rw [hgl]
      have hrev : (List.range (n + 1)).reverse = n :: (List.range n).reverse := by
        rw [List.range_succ, List.reverse_append]
        simp
      rw [hrev, V1.dropRows_cons]
      have hn : g.length - 1 = n := by omega
      have hcells := V1.dropCells_id n (List.range (rowLen g n)) g
        (fun x u hcu => hbot x u (by rwa [hn]))
      rw [hcells]
      rw [if_neg (fun hcon =>
        Bool.noConfusion (hcon : (⟨false, g⟩ : CResult (Grid V1.Tile)).crashed
          = true))]
      exact (V1.dropRows_nocrash (List.range n).reverse g (fun y hy => by
        have hyn := List.mem_range.mp (List.mem_reverse.mp hy)
        omega)).1

/-- Witness for the amended C9: a bottom-row stone stays put under
`part_000`'s gravity, and `index.ts`'s gravity completes without failure
on a board whose bottom row is clear of stones and boxes. -/
theorem C9_gravity_bounds_amended_witness :
    cellAt (P0.dropTilesOneCell [[P0.Tile.AIR], [P0.Tile.STONE]]) 1 0
        = some P0.Tile.STONE ∧
    (V1.dropTiles [[V1.Tile.STONE], [V1.Tile.AIR]]).crashed = false :=
  ⟨C9_gravity_bounds_amended.1 [[P0.Tile.AIR], [P0.Tile.STONE]] 0 P0.Tile.STONE
      (by decide) (by decide),
    C9_gravity_bounds_amended.2 [[V1.Tile.STONE], [V1.Tile.AIR]] (by decide)⟩

/-!
## Column conservation
-/

theorem countIn_set_elem {α : Type} [DecidableEq α] (l : List α) :
    ∀ (n : Nat) {a : α} (b c : α), l[n]? = some a →
      countIn (l.set n b) c + (if a = c then 1 else 0)
        = countIn l c + (if b = c then 1 else 0) := by
  induction l with
  | nil => intro n a b c h; simp at h
  | cons u us ih =>
    intro n a b c h
    cases n with
    | zero =>
      simp only [List.getElem?_cons_zero, Option.some_inj] at h
      subst h
      simp only [List.set_cons_zero, countIn, List.countP_cons]
      by_cases hb : b = c <;> by_cases hu : u = c <;> simp [hb, hu] <;> try omega
    | succ n =>
      simp only [List.getElem?_cons_succ] at h
      simp only [List.set_cons_succ, countIn, List.countP_cons]
      have hih := ih n b c h
      simp only [countIn] at hih
      by_cases hu : u = c <;> simp [hu] <;> omega

theorem V1.dropCell_colCounts {m m1 : Grid V1.Tile} {y x : Nat}
    (h : V1.dropCell m y x = some m1) (j : Nat) (o : Option V1.Tile) :
    countIn (colMap m1 (Option.map V1.norm) j) o
      = countIn (colMap m (Option.map V1.norm) j) o := by
  rcases V1.dropCell_spec m y x with hs | ⟨u, hu, hcell, hs⟩ |
    ⟨u, v, hu, hcell, hnv, hylt, hair, hs⟩ | ⟨u, _, _, _, hs⟩
  · rw [hs] at h
    rw [← Option.some.inj h]
  · rw [hs] at h
    rw [← Option.some.inj h]
    by_cases hj : j = x
    · rw [hj]
      rw [colMap_setN_eq _ _ hcell]
      have hb : (Option.map V1.norm (some (V1.norm u)))
          = (Option.map V1.norm (some u)) := by
        simp [V1.norm_norm]
      rw [hb]
      have hget := colMap_get (Option.map V1.norm) hcell
      have hcse := countIn_set_elem (colMap m (Option.map V1.norm) x) y
        (Option.map V1.norm (some u)) o hget
      omega
    · rw [colMap_setN_ne _ _ _ hj]
  · rw [hs] at h
    rw [← Option.some.inj h]
    by_cases hj : j = x
    · rw [hj]
      have hmid : cellAt (setN m (y + 1) x v) y x = some u := by
        rw [cellAt_setN_ne _ _ _ (fun hcon => (by omega : y ≠ y + 1) hcon.1)]
        exact hcell
      rw [colMap_setN_eq _ _ hmid, colMap_setN_eq _ _ hair]
      have hv : Option.map V1.norm (some v) = Option.map V1.norm (some u) := by
        simp [hnv]
      rw [hv]
      have hget1 := colMap_get (Option.map V1.norm) hair
      have hcse1 := countIn_set_elem (colMap m (Option.map V1.norm) x) (y + 1)
        (Option.map V1.norm (some u)) o hget1
      have hget2 : ((colMap m (Option.map V1.norm) x).set (y + 1)
          (Option.map V1.norm (some u)))[y]?
          = some (Option.map V1.norm (some u)) := by
        rw [List.getElem?_set_ne (by omega : y + 1 ≠ y)]
        exact colMap_get (Option.map V1.norm) hcell
      have hcse2 := countIn_set_elem ((colMap m (Option.map V1.norm) x).set (y + 1)
        (Option.map V1.norm (some u))) y (Option.map V1.norm (some V1.Tile.AIR))
        o hget2
      have hAIR : Option.map V1.norm (some V1.Tile.AIR) = some V1.Tile.AIR := rfl
      rw [hAIR] at hcse1 hcse2 ⊢
      omega
    · rw [colMap_setN_ne _ _ _ hj, colMap_setN_ne _ _ _ hj]
  · rw [hs] at h
    exact Option.noConfusion h

theorem P0.dropCell_colCount (m : Grid P0.Tile) (y x j : Nat)
    (o : Option P0.Tile) :
    countIn (colMap (P0.dropCell m y x) id j) o = countIn (colMap m id j) o := by
  rcases P0.dropCell_cases m y x with heq | ⟨u, hu, hcu, hzy, hair, heq⟩
  · rw [heq]
  · rw [heq]
    by_cases hj : j = x
    · rw [hj]
      have hmid : cellAt (setN m (y + 1) x u) y x = some u := by
        rw [cellAt_setN_ne _ _ _ (fun hcon => (by omega : y ≠ y + 1) hcon.1)]
        exact hcu
      rw [colMap_setN_eq _ _ hmid, colMap_setN_eq _ _ hair]
      have hget1 := colMap_get id hair
      have hcse1 := countIn_set_elem (colMap m id x) (y + 1) (id (some u)) o hget1
      have hget2 : ((colMap m id x).set (y + 1) (id (some u)))[y]?
          = some (id (some u)) := by
        rw [List.getElem?_set_ne (by omega : y + 1 ≠ y)]
        exact colMap_get id hcu
      have hcse2 := countIn_set_elem ((colMap m id x).set (y + 1) (id (some u))) y
        (id (some P0.Tile.AIR)) o hget2
      simp only [id_eq] at hcse1 hcse2 ⊢
      omega
    · rw [colMap_setN_ne _ _ _ hj, colMap_setN_ne _ _ _ hj]

/-- Claim C10: one gravity sweep conserves the multiset of tiles of every
column — identifying the falling and resting variants of stone and box in
`index.ts` — because tiles only move straight down within their own
column and falling/resting conversions rename but never create or
destroy a tile.  Stated as: every value's count in every column is
unchanged (for `index.ts` this holds of the state even at a crash
point, hence of `.state` unconditionally). -/
theorem C10_gravity_conserves_columns :
    (∀ (g : Grid V1.Tile) (j : Nat) (o : Option V1.Tile),
       countIn (colMap (V1.dropTiles g).state (Option.map V1.norm) j) o
         = countIn (colMap g (Option.map V1.norm) j) o) ∧
    (∀ (g : Grid P0.Tile) (j : Nat) (o : Option P0.Tile),
       countIn (colMap (P0.dropTilesOneCell g) id j) o
         = countIn (colMap g id j) o) := by
  constructor
  · intro g j o
    exact @V1.dropTiles_pres
      (fun m => countIn (colMap m (Option.map V1.norm) j) o
        = countIn (colMap g (Option.map V1.norm) j) o)
      (fun m y x m1 hdc hm => by
        show countIn (colMap m1 (Option.map V1.norm) j) o = _
        rw [V1.dropCell_colCounts hdc j o]
        exact hm)
      g rfl
  · intro g j o
    exact @P0.dropTilesOneCell_pres
      (fun m => countIn (colMap m id j) o = countIn (colMap g id j) o)
      (fun m y x hm => by
        show countIn (colMap (P0.dropCell m y x) id j) o = _
        rw [P0.dropCell_colCount m y x j o]
        exact hm)
      g rfl
